import Mathlib

/-!
Verification of the cleaning / health-scoring / reconciliation core of
main_app.py (Streamlit dashboard for data quality and operational risk).

Shallow embedding conventions:
* a pandas cell that can be null is an Option; NaN / NaT is none;
* floats are modelled as rationals (ℚ); pandas and Python round-half-to-even
  is modelled exactly on ℚ;
* strings are lists of characters (Str), so that str.strip() and its
  idempotence can be reasoned about directly;
* pandas comparisons with NaN yield False: every boolean mask on an Option
  value therefore returns false on none, mirroring the source;
* a pandas date column cell is a DVal: a still-unparsed raw string, a parsed
  date (coded as an integer timestamp), or null (NaT).  pd.to_datetime is an
  external library routine, so the string parser is a parameter; the code
  under verification only relies on parsed values staying fixed.
* the cleaners are modelled at the fixed schema the application expects
  (the columns named in FILES_CONFIG and the fallback schemas); the
  "skip the rule when the column is absent" guards of the source are then
  always taken in the positive direction, except for the SKU_Fantasma
  column of the transactions table, whose presence genuinely varies at
  runtime and is tracked by an explicit flag.
-/

/-- Characters of a Python string. -/
abbrev Str := List Char

/-- Whitespace as stripped by str.strip() (common ASCII whitespace). -/
def isSpc (c : Char) : Bool := c == ' ' || c == '\t' || c == '\n' || c == '\r'

/-- Model of pandas Series.str.strip(): drop leading and trailing whitespace. -/
def stripL (l : Str) : Str :=
  ((l.dropWhile isSpc).reverse.dropWhile isSpc).reverse

/-- Model of .astype(str) on a nullable string cell: pandas renders NaN as
the string "nan". -/
def toStrCell : Option Str → Str
  | some s => s
  | none => "nan".toList

/-- Identifier normalization used by Phase 2: .astype(str).str.strip(). -/
def normSku (c : Option Str) : Str := stripL (toStrCell c)

/-- A date-like cell: raw (unparsed) text, a parsed timestamp, or NaT. -/
inductive DVal where
  | raw (s : Str)
  | date (d : ℤ)
  | null
deriving DecidableEq, Repr

/-- Model of pd.to_datetime(col, errors="coerce") applied to one cell; the
actual text-to-date parser p is a parameter (pandas internals).  Parsed
dates and NaT are left unchanged, raw text parses to a date or to NaT. -/
def parseDV (p : Str → Option ℤ) : DVal → DVal
  | .raw s => match p s with
    | some d => .date d
    | none => .null
  | .date d => .date d
  | .null => .null

/-- Python float-to-int conversion (astype(int)): truncation toward zero. -/
def qtrunc (q : ℚ) : ℤ := if 0 ≤ q then ⌊q⌋ else -⌊-q⌋

/-- Round-half-to-even to an integer, as numpy/pandas .round and Python
round do. -/
def rhe (q : ℚ) : ℤ :=
  let f := ⌊q⌋
  let r := q - f
  if r < 1/2 then f
  else if 1/2 < r then f + 1
  else if f % 2 = 0 then f else f + 1

/-- Series.round(2) / round(x, 2) on one value. -/
def roundQ2 (q : ℚ) : ℚ := (rhe (q * 100) : ℚ) / 100

/-- Maximum of a list of rationals (pandas .max() after dropping NaN);
none on an empty list (pandas returns NaN there). -/
def listMax : List ℚ → Option ℚ
  | [] => none
  | x :: xs => match listMax xs with
    | none => some x
    | some m => some (max x m)

/-- Minimum of a list of rationals, dual to listMax. -/
def listMin : List ℚ → Option ℚ
  | [] => none
  | x :: xs => match listMin xs with
    | none => some x
    | some m => some (min x m)

/-- Insert into a sorted list (ascending). -/
def insSorted (q : ℚ) : List ℚ → List ℚ
  | [] => [q]
  | x :: xs => if q ≤ x then q :: x :: xs else x :: insSorted q xs

/-- Insertion sort, ascending. -/
def sortQ : List ℚ → List ℚ
  | [] => []
  | x :: xs => insSorted x (sortQ xs)

/-- pandas Series.quantile with linear interpolation, over the non-null
values vs (callers pass the already dropna-ed list).  On an empty list the
result is irrelevant to every use site (all are guarded) and is 0. -/
def quantileQ (p : ℚ) (vs : List ℚ) : ℚ :=
  let s := sortQ vs
  let n := s.length
  if n = 0 then 0
  else
    let h : ℚ := p * ((n : ℚ) - 1)
    let i : ℕ := (max 0 ⌊h⌋).toNat
    let fr : ℚ := h - (⌊h⌋ : ℚ)
    match s.get? i, s.get? (i + 1) with
    | some a, some b => a + fr * (b - a)
    | some a, none => a
    | none, _ => 0

/-- pandas Series.median() = quantile 1/2; none on an empty series (NaN). -/
def medianQ (vs : List ℚ) : Option ℚ :=
  if vs.isEmpty then none else some (quantileQ (1/2) vs)

/-- Helper for drop_duplicates(keep=first): keep the first occurrence of
each key f x, preserving order; seen accumulates keys already emitted. -/
def dedupByAux {α κ : Type} [DecidableEq κ] (f : α → κ) (seen : List κ) :
    List α → List α
  | [] => []
  | x :: xs =>
    if f x ∈ seen then dedupByAux f seen xs
    else x :: dedupByAux f (f x :: seen) xs

/-- Model of df.drop_duplicates(keep=first) on key f. -/
def dedupBy {α κ : Type} [DecidableEq κ] (f : α → κ) (l : List α) : List α :=
  dedupByAux f [] l

/-- Boolean mask x < c on a nullable numeric (NaN compares False). -/
def qLtB (x : Option ℚ) (c : ℚ) : Bool :=
  match x with
  | some v => decide (v < c)
  | none => false

/-- Boolean mask x > c on a nullable numeric (NaN compares False). -/
def qGtB (x : Option ℚ) (c : ℚ) : Bool :=
  match x with
  | some v => decide (c < v)
  | none => false

/-- Boolean mask c1 ≤ x ≤ c2 on a nullable numeric (NaN compares False). -/
def qBetweenB (x : Option ℚ) (c1 c2 : ℚ) : Bool :=
  match x with
  | some v => decide (c1 ≤ v) && decide (v ≤ c2)
  | none => false

/-- A generic pandas cell: a number, a string, a boolean, or NaN.  Numeric
text that pandas to_numeric would parse is modelled as a num cell. -/
inductive Cell where
  | num (q : ℚ)
  | str (s : Str)
  | boolv (b : Bool)
  | null
deriving DecidableEq, Repr

/-- One entry of the CleaningLogger (log_step): the recorded rows_before
and rows_after; filas_eliminadas and pct_eliminado are computed from these
two numbers, and the text fields do not influence any claim. -/
structure LogEntry where
  antes : ℕ
  despues : ℕ
deriving DecidableEq, Repr

-- =========================================================================
-- Phase 2: SKU-fantasma reconciliation (module level, lines 1490-1556)
-- =========================================================================

/-- A cleaned-inventory row at the schema the app expects
(SKU_ID, Categoria, Ultima_Revision, Stock_Actual, Costo_Unitario_USD,
Punto_Reorden, Lead_Time_Dias). -/
structure InvRow where
  sku : Option Str
  categoria : Option Str
  ultimaRevision : DVal
  stock : Option ℚ
  costo : Option ℚ
  punto : Option ℚ
  lead : Option ℚ
deriving DecidableEq, Repr

/-- A cleaned-transactions row at the schema the app expects
(Transaccion_ID, SKU_ID, Fecha_Venta, Cantidad_Vendida, Precio_Venta_Final,
Costo_Envio, Tiempo_Entrega_Real, Ticket_Soporte_Abierto), plus the
SKU_Fantasma tag column the transactions cleaner may add. -/
structure TrxRow where
  tid : Str
  sku : Option Str
  fechaVenta : DVal
  cantidad : Option ℚ
  precio : Option ℚ
  costoEnvio : Option ℚ
  tiempo : Option ℚ
  ticket : Option ℚ
  fantasma : Bool
deriving DecidableEq, Repr

/-- The sku_status values FANTASMA / VALIDO of Phase 2. -/
inductive SkuStatus where
  | valido
  | fantasma
deriving DecidableEq, Repr

/-- One row of the Phase-2 merged table, with the backfilled numeric columns
(after fillna(0)) and the derived variables, exactly as built in lines
1506-1556 of the source. -/
structure MRow where
  tid : Str
  sku : Str
  mergeLeftOnly : Bool
  status : SkuStatus
  categoria : Option Str
  stockInv : Option ℚ
  puntoInv : Option ℚ
  cantidad : ℚ
  precio : ℚ
  costoEnvio : ℚ
  tiempo : ℚ
  lead : ℚ
  ticket : ℤ
  costoUnit : ℚ
  ingreso : ℚ
  costoTotal : ℚ
  margen : ℚ
  margenPct : ℚ
  brecha : ℚ
  riesgo : ℤ
  healthScore : ℤ
deriving DecidableEq, Repr

/-- Build one output row of the Phase-2 merge for transaction t (with
normalized identifier s) and the matching inventory row m (none when the
merge indicator is left_only).  Backfill, derived variables, risk flag and
per-transaction health score follow source lines 1506-1556:
fillna(0) on the defensive columns, Ingreso, Costo_Total, Margen_Utilidad,
Margen_Pct (margin / ingreso when ingreso > 0 else 0), Brecha_Entrega_Dias,
Riesgo_Operativo and Health_Score (100 - 40/30/20/10, clipped to [0,100]). -/
def mkMerged (t : TrxRow) (s : Str) (m : Option InvRow) : MRow :=
  let status := if m.isNone then SkuStatus.fantasma else SkuStatus.valido
  let cantidad := t.cantidad.getD 0
  let precio := t.precio.getD 0
  let costoEnvio := t.costoEnvio.getD 0
  let tiempo := t.tiempo.getD 0
  let lead := (m.bind (·.lead)).getD 0
  let ticket := qtrunc (t.ticket.getD 0)
  let costoUnit := (m.bind (·.costo)).getD 0
  let ingreso := cantidad * precio
  let costoTotal := cantidad * costoUnit + costoEnvio
  let margen := ingreso - costoTotal
  let margenPct := if 0 < ingreso then margen / ingreso else 0
  let brecha := tiempo - lead
  let riesgo : ℤ :=
    if status = SkuStatus.fantasma ∨ margen < 0 ∨ 2 < brecha ∨ ticket = 1
    then 1 else 0
  let hs : ℤ :=
    100 - (if status = SkuStatus.fantasma then 40 else 0)
        - (if margen < 0 then 30 else 0)
        - (if 2 < brecha then 20 else 0)
        - (if ticket = 1 then 10 else 0)
  { tid := t.tid, sku := s, mergeLeftOnly := m.isNone, status := status,
    categoria := m.bind (·.categoria), stockInv := m.bind (·.stock),
    puntoInv := m.bind (·.punto),
    cantidad := cantidad, precio := precio, costoEnvio := costoEnvio,
    tiempo := tiempo, lead := lead, ticket := ticket, costoUnit := costoUnit,
    ingreso := ingreso, costoTotal := costoTotal, margen := margen,
    margenPct := margenPct, brecha := brecha, riesgo := riesgo,
    healthScore := max 0 (min 100 hs) }

/-- The normalized inventory key column: inv["SKU_ID"].astype(str).str.strip(). -/
def invSkus (inv : List InvRow) : List Str :=
  inv.map (fun i => normSku i.sku)

/-- Phase 2 reconciliation (source lines 1490-1556): normalize SKU_ID on
both sides, left-merge transactions with the selected inventory columns on
SKU_ID with an indicator, classify sku_status from the indicator, backfill
and derive.  A pandas left merge emits, for each left row in order, one
output row per matching right row (in right order), or a single
NaN-padded row when there is no match. -/
def fase2 (inv : List InvRow) (trx : List TrxRow) : List MRow :=
  let invN := inv.map (fun i => { i with sku := some (normSku i.sku) })
  trx.flatMap (fun t =>
    let s := normSku t.sku
    let ms := invN.filter (fun i => i.sku = some s)
    if ms.isEmpty then [mkMerged t s none]
    else ms.map (fun i => mkMerged t s (some i)))

-- =========================================================================
-- Feedback cleaner: cargar_feedback (source lines 215-410)
-- =========================================================================

/-- A feedback row at the schema the app expects: Feedback_ID,
Transaccion_ID, Edad_Cliente (after pd.to_numeric), Satisfaccion_NPS
(after pd.to_numeric), plus the remaining columns (Rating_Producto,
Comentario_Texto, ...) carried as an opaque payload, relevant only to the
full-row duplicate step. -/
structure FbRow where
  fid : Str
  tid : Str
  edad : Option ℚ
  nps : Option ℚ
  extra : List Cell
deriving DecidableEq, Repr

/-- PASO 1: drop_duplicates(keep=first) on full rows. -/
def fbStep1 (l : List FbRow) : List FbRow := dedupBy id l

/-- The composite key of PASO 2. -/
def fbKey (r : FbRow) : Str × Str := (r.fid, r.tid)

/-- The .astype(str).str.strip() assignments preceding PASO 2. -/
def fbStripIds (l : List FbRow) : List FbRow :=
  l.map (fun r => { r with fid := stripL r.fid, tid := stripL r.tid })

/-- PASO 2: strip the two id columns, then drop_duplicates on
(Feedback_ID, Transaccion_ID), keep=first. -/
def fbStep2 (l : List FbRow) : List FbRow := dedupBy fbKey (fbStripIds l)

/-- PASO 3: remove rows with Edad_Cliente < 0 (NaN compares False, kept). -/
def fbStep3 (l : List FbRow) : List FbRow :=
  l.filter (fun r => !(qLtB r.edad 0))

/-- PASO 4: remove rows with Edad_Cliente > 110. -/
def fbStep4 (l : List FbRow) : List FbRow :=
  l.filter (fun r => !(qGtB r.edad 110))

/-- PASO 5: remove rows with Edad_Cliente < 13. -/
def fbStep5 (l : List FbRow) : List FbRow :=
  l.filter (fun r => !(qLtB r.edad 13))

/-- PASO 6A: Satisfaccion_NPS := abs(Satisfaccion_NPS). -/
def fbAbs (l : List FbRow) : List FbRow :=
  l.map (fun r => { r with nps := r.nps.map (fun v => |v|) })

/-- The non-null NPS values of the current table. -/
def npsVals (l : List FbRow) : List ℚ := l.filterMap (·.nps)

/-- PASO 6B: scale detection on the absolute NPS values.  If the observed
max (NaN-skipping) is in (10, 100] the column becomes (nps / 10).round(2);
if the max is above 100 and the observed range is positive the column
becomes the min-max rescaling to [0, 10], rounded to 2 decimals; otherwise
the column is untouched.  No rows are added or removed here. -/
def fbScale (l : List FbRow) : List FbRow :=
  match listMax (npsVals l) with
  | none => l
  | some mx =>
    if 10 < mx ∧ mx ≤ 100 then
      l.map (fun r => { r with nps := r.nps.map (fun v => roundQ2 (v / 10)) })
    else if 100 < mx then
      let mn := (listMin (npsVals l)).getD 0
      if 0 < mx - mn then
        l.map (fun r =>
          { r with nps := r.nps.map (fun v => roundQ2 ((v - mn) / (mx - mn) * 10)) })
      else l
    else l

/-- Whether PASO 6B writes a log entry (it logs in both rescale branches,
even when the min-max branch skips the assignment because the range is 0). -/
def fbScaleLogged (l : List FbRow) : Bool :=
  match listMax (npsVals l) with
  | none => false
  | some mx => decide ((10 < mx ∧ mx ≤ 100) ∨ 100 < mx)

/-- PASO 7: remove rows whose Satisfaccion_NPS is NaN. -/
def fbStep8 (l : List FbRow) : List FbRow :=
  l.filter (fun r => !r.nps.isNone)

/-- PASO 8: remove rows whose Satisfaccion_NPS is outside [0, 10]. -/
def fbStep9 (l : List FbRow) : List FbRow :=
  l.filter (fun r => !(qLtB r.nps 0 || qGtB r.nps 10))

/-- cargar_feedback (lines 215-410): the cleaned table and the cleaning
log.  Steps execute in source order; the two id columns exist in the fixed
schema, so the guarded steps always run.  Entries for PASO 6B and the
range filter are conditional exactly as in the source (the range filter
logs only when it removed at least one row). -/
def cargar_feedback (rows : List FbRow) : List FbRow × List LogEntry :=
  let d1 := fbStep1 rows
  let d2 := fbStep2 d1
  let d3 := fbStep3 d2
  let d4 := fbStep4 d3
  let d5 := fbStep5 d4
  let d6 := fbAbs d5
  let d7 := fbScale d6
  let d8 := fbStep8 d7
  let d9 := fbStep9 d8
  let base : List LogEntry :=
    [⟨rows.length, d1.length⟩, ⟨d1.length, d2.length⟩, ⟨d2.length, d3.length⟩,
     ⟨d3.length, d4.length⟩, ⟨d4.length, d5.length⟩, ⟨d5.length, d6.length⟩]
  let scaleLog : List LogEntry :=
    if fbScaleLogged d6 then [⟨d6.length, d7.length⟩] else []
  let naLog : List LogEntry := [⟨d7.length, d8.length⟩]
  let rangeLog : List LogEntry :=
    if d9.length < d8.length then [⟨d8.length, d9.length⟩] else []
  (d9, base ++ scaleLog ++ naLog ++ rangeLog)

-- =========================================================================
-- Inventory cleaner: cargar_inventario (source lines 414-598)
-- =========================================================================

/-- Boolean mask c ≤ x on a nullable numeric (NaN compares False). -/
def qGeB (x : Option ℚ) (c : ℚ) : Bool :=
  match x with
  | some v => decide (c ≤ v)
  | none => false

/-- Boolean mask x ≤ c on a nullable numeric (NaN compares False). -/
def qLeB (x : Option ℚ) (c : ℚ) : Bool :=
  match x with
  | some v => decide (v ≤ c)
  | none => false

/-- PASO 1 of the inventory cleaner: parse the date-like column of the
fixed schema (Ultima_Revision matches the "revision" name scan). -/
def invParse (p : Str → Option ℤ) (l : List InvRow) : List InvRow :=
  l.map (fun r => { r with ultimaRevision := parseDV p r.ultimaRevision })

/-- The non-null Lead_Time_Dias values of the current table. -/
def leadVals (l : List InvRow) : List ℚ := l.filterMap (·.lead)

/-- PASO 2: the Lead_Time_Dias IQR filter, keeping rows inside
[Q1 - 1.5 IQR, Q3 + 1.5 IQR] and >= 0 (NaN rows fail every comparison and
are dropped).  Callers only reach it when leadVals is nonempty. -/
def invLeadFilter (l : List InvRow) : List InvRow :=
  let q1 := quantileQ (1/4) (leadVals l)
  let q3 := quantileQ (3/4) (leadVals l)
  let iqr := q3 - q1
  let lb := q1 - 3/2 * iqr
  let ub := q3 + 3/2 * iqr
  l.filter (fun r => qGeB r.lead lb && qLeB r.lead ub && qGeB r.lead 0)

/-- PASO 3: remove rows with Costo_Unitario_USD <= 0 (NaN kept). -/
def invCostoPos (l : List InvRow) : List InvRow :=
  l.filter (fun r => !(qLeB r.costo 0))

/-- The non-null Costo_Unitario_USD values of the current table. -/
def costoVals (l : List InvRow) : List ℚ := l.filterMap (·.costo)

/-- PASO 4: the Costo_Unitario_USD IQR filter; when no valid cost exists
the whole block (filter and log entry) is skipped. -/
def invCostoIQR (l : List InvRow) : List InvRow :=
  if (costoVals l).length = 0 then l
  else
    let q1 := quantileQ (1/4) (costoVals l)
    let q3 := quantileQ (3/4) (costoVals l)
    let iqr := q3 - q1
    let lb := q1 - 3/2 * iqr
    let ub := q3 + 3/2 * iqr
    l.filter (fun r => qGeB r.costo lb && qLeB r.costo ub)

/-- PASO 5A: drop irrecoverable rows (Stock_Actual < 0 and Lead_Time NaN). -/
def invStock5A (l : List InvRow) : List InvRow :=
  l.filter (fun r => !(qLtB r.stock 0 && r.lead.isNone))

/-- The recoverable mask of PASO 5B: Stock_Actual < 0 with valid lead. -/
def invRecupB (r : InvRow) : Bool := qLtB r.stock 0 && r.lead.isSome

/-- PASO 5B: when recoverable rows exist, impute their stock with the
median of the current non-negative stock values (the median of an empty
selection is NaN, which pandas then assigns, modelled by none). -/
def invImpute (l : List InvRow) : List InvRow :=
  if 0 < l.countP invRecupB then
    let med := medianQ (l.filterMap (fun r => match r.stock with
      | some s => if 0 ≤ s then some s else none
      | none => none))
    l.map (fun r => if invRecupB r then { r with stock := med } else r)
  else l

/-- PASO 5C: drop residual Stock_Actual < 0 rows. -/
def invStock5C (l : List InvRow) : List InvRow :=
  l.filter (fun r => !(qLtB r.stock 0))

/-- cargar_inventario (lines 414-598), assembling the steps above in
source order with the cleaning log.  When the Lead_Time_Dias column has no
valid (non-NaN) value the source skips the bound computation but then
evaluates an f-string mentioning lower_bound_lead, which is undefined
there: the call raises NameError, modelled as Except.error. -/
def cargar_inventario (p : Str → Option ℤ) (rows : List InvRow) :
    Except Unit (List InvRow × List LogEntry) :=
  let d1 := invParse p rows
  if (leadVals d1).length = 0 then .error ()
  else
    let d2 := invLeadFilter d1
    let d3 := invCostoPos d2
    let d4 := invCostoIQR d3
    let d5 := invStock5A d4
    let d6 := invImpute d5
    let d7 := invStock5C d6
    let logC1 : List LogEntry :=
      if (costoVals d3).length = 0 then [] else [⟨d3.length, d4.length⟩]
    let log5B : List LogEntry :=
      if 0 < d5.countP invRecupB then [⟨d5.countP invRecupB, 0⟩] else []
    let log5C : List LogEntry :=
      if d7.length < d6.length then [⟨d6.length, d7.length⟩] else []
    .ok (d7,
      [⟨rows.length, d1.length⟩, ⟨d1.length, d2.length⟩, ⟨d2.length, d3.length⟩] ++
      logC1 ++ [⟨d4.length, d5.length⟩] ++ log5B ++ log5C)

-- =========================================================================
-- Transactions cleaner: cargar_transacciones (source lines 600-792)
-- =========================================================================

/-- The transactions table: its rows plus whether the SKU_Fantasma column
exists (it is created by the referential-integrity step only when an
inventory table was supplied, and PASO 5 is guarded on its presence). -/
structure TrxTable where
  rows : List TrxRow
  hasFantasma : Bool
deriving DecidableEq, Repr

/-- PASO 1: parse the single fecha column (Fecha_Venta) of the schema. -/
def trxParse (p : Str → Option ℤ) (l : List TrxRow) : List TrxRow :=
  l.map (fun r => { r with fechaVenta := parseDV p r.fechaVenta })

/-- The referential tag of PASO 2: True when the raw SKU_ID value is not a
member of the non-null inventory SKU_ID values (NaN isin anything is
False, so a null SKU is tagged fantasma). -/
def fantasmaTag (skus : List (Option Str)) (r : TrxRow) : Bool :=
  match r.sku with
  | some s => decide (some s ∉ skus)
  | none => true

/-- PASO 2: with an inventory table, recompute SKU_Fantasma on every row. -/
def trxTag (inv : List InvRow) (l : List TrxRow) : List TrxRow :=
  l.map (fun r => { r with fantasma := fantasmaTag (inv.map (·.sku) |>.filter (·.isSome)) r })

/-- PASO 3: remove rows whose SKU_ID is NaN or strips to the empty string. -/
def trxStep3 (l : List TrxRow) : List TrxRow :=
  l.filter (fun r => !(r.sku.isNone || decide (stripL (toStrCell r.sku) = [])))

/-- PASO 4: remove rows with Tiempo_Entrega_Real > 999. -/
def trxStep4 (l : List TrxRow) : List TrxRow :=
  l.filter (fun r => !(qGtB r.tiempo 999))

/-- PASO 5: remove rows with Tiempo_Entrega_Real > 120 and SKU_Fantasma. -/
def trxStep5 (l : List TrxRow) : List TrxRow :=
  l.filter (fun r => !(qGtB r.tiempo 120 && r.fantasma))

/-- PASO 6: remove rows with Cantidad_Vendida < 0 and Costo_Envio NaN. -/
def trxStep6 (l : List TrxRow) : List TrxRow :=
  l.filter (fun r => !(qLtB r.cantidad 0 && r.costoEnvio.isNone))

/-- PASO 7: remove rows with Cantidad_Vendida < 0 and entrega > 100. -/
def trxStep7 (l : List TrxRow) : List TrxRow :=
  l.filter (fun r => !(qLtB r.cantidad 0 && qGtB r.tiempo 100))

/-- PASO 8: remove residual rows with Cantidad_Vendida < 0. -/
def trxStep8 (l : List TrxRow) : List TrxRow :=
  l.filter (fun r => !(qLtB r.cantidad 0))

/-- The Fecha_Venta > now mask of PASO 9 (NaT compares False). -/
def futureB (now : ℤ) (d : DVal) : Bool :=
  match d with
  | .date t => decide (now < t)
  | _ => false

/-- PASO 9: remove rows whose Fecha_Venta lies after the processing
instant. -/
def trxStep9 (now : ℤ) (l : List TrxRow) : List TrxRow :=
  l.filter (fun r => !futureB now r.fechaVenta)

/-- cargar_transacciones (lines 600-792): parse dates, tag phantoms
against the optional inventory, then the removal cascade, with the
cleaning log recorded exactly where the source logs (PASO 8 and PASO 9
entries only when rows were removed). -/
def cargar_transacciones (p : Str → Option ℤ) (invOpt : Option (List InvRow))
    (now : ℤ) (t : TrxTable) : TrxTable × List LogEntry :=
  let d1 := trxParse p t.rows
  let logF : List LogEntry := [⟨t.rows.length, d1.length⟩]
  let step2 :=
    match invOpt with
    | some inv => (trxTag inv d1, true, ([⟨d1.length, d1.length⟩] : List LogEntry))
    | none => (d1, t.hasFantasma, [])
  let d2 := step2.1
  let hasF := step2.2.1
  let d3 := trxStep3 d2
  let log3 : List LogEntry := [⟨d2.length, d3.length⟩]
  let d4 := trxStep4 d3
  let log4 : List LogEntry := [⟨d3.length, d4.length⟩]
  let step5 :=
    if hasF then
      let d5 := trxStep5 d4
      (d5, ([⟨d4.length, d5.length⟩] : List LogEntry))
    else (d4, [])
  let d5 := step5.1
  let d6 := trxStep6 d5
  let log6 : List LogEntry := [⟨d5.length, d6.length⟩]
  let d7 := trxStep7 d6
  let log7 : List LogEntry := [⟨d6.length, d7.length⟩]
  let d8 := trxStep8 d7
  let log8 : List LogEntry :=
    if d8.length < d7.length then [⟨d7.length, d8.length⟩] else []
  let d9 := trxStep9 now d8
  let log9 : List LogEntry :=
    if d9.length < d8.length then [⟨d8.length, d9.length⟩] else []
  ({ rows := d9, hasFantasma := hasF },
   logF ++ step2.2.2 ++ log3 ++ log4 ++ step5.2 ++ log6 ++ log7 ++ log8 ++ log9)

-- =========================================================================
-- Health checker: run_healthcheck (source lines 799-1209)
-- =========================================================================

/-- A generic dataframe for run_healthcheck: named columns over rows of
cells.  Cells of a row beyond its length read as null. -/
structure DF where
  cols : List String
  rows : List (List Cell)
deriving DecidableEq, Repr

/-- Cell j of a row (missing positions read as null). -/
def cellAt (r : List Cell) (j : ℕ) : Cell := r.getD j Cell.null

/-- Position of a named column. -/
def colIdx (df : DF) (name : String) : Option ℕ :=
  df.cols.findIdx? (fun c => c == name)

/-- The cells of a named column, when the column exists. -/
def colCells (df : DF) (name : String) : Option (List Cell) :=
  (colIdx df name).map (fun j => df.rows.map (fun r => cellAt r j))

/-- Cell-level isna. -/
def isNullC : Cell → Bool
  | .null => true
  | _ => false

/-- Cell-level pd.to_numeric(errors="coerce"): numbers stay, booleans
coerce to 1/0, text (non-numeric in this model) and NaN coerce to NaN. -/
def toNumC : Cell → Option ℚ
  | .num q => some q
  | .boolv b => some (if b then 1 else 0)
  | _ => none

/-- Cell-level (col == True), as used on the SKU_Fantasma column: True for
the boolean True and for the number 1 (pandas equality semantics). -/
def eqTrueC : Cell → Bool
  | .boolv b => b
  | .num q => decide (q = 1)
  | _ => false

/-- df.isna().mean() * 100, rounded to 2 decimals, for one column of a
table with n rows.  pandas yields NaN on an empty table; ℚ division by
zero gives 0 here, and both lie inside [0, 100]. -/
def colMissingPct (n : ℕ) (cells : List Cell) : ℚ :=
  roundQ2 (100 * (cells.countP isNullC : ℚ) / (n : ℚ))

/-- The per-column missing percentages, hc["missing_pct"]. -/
def missingPcts (df : DF) : List ℚ :=
  (List.range df.cols.length).map
    (fun j => colMissingPct df.rows.length (df.rows.map (fun r => cellAt r j)))

/-- df.duplicated().sum(): the number of rows equal to an earlier row. -/
def dupCount (df : DF) : ℕ := df.rows.length - (dedupBy id df.rows).length

/-- hc["missing_required_cols"]: the required names absent from the table
(the source materializes a set difference; only membership and emptiness
are consumed downstream). -/
def missingRequired (df : DF) (req : List String) : List String :=
  req.filter (fun c => !df.cols.contains c)

/-- The health status values. -/
inductive HStatus where
  | ok
  | invalid
deriving DecidableEq, Repr

/-- The dataset_name values that activate specialized validations. -/
inductive DKind where
  | inventario
  | feedback
  | transacciones
  | generic
deriving DecidableEq, Repr

/-- Inventory penalty (lines 1158-1164): each stock_issues line subtracts
at most once; the line containing "desafio contable" exists iff some
Stock_Actual value is negative (-25), the line containing "NaN" exists iff
some coerced Stock_Actual value is NaN (-10).  The purely statistical
lines match neither substring. -/
def invStockPenalty (df : DF) : ℚ :=
  match colCells df "Stock_Actual" with
  | none => 0
  | some cells =>
    let stock := cells.map toNumC
    (if 0 < stock.countP (fun v => qLtB v 0) then 25 else 0) +
    (if 0 < stock.countP (·.isNone) then 10 else 0)

/-- Feedback penalty (lines 1167-1183): -20 for the full-duplicates line,
-20 for the composite-key duplicates line (both contain "Duplicados"),
-15 for the Edades > 110 line, -10 for the Edades-NaN line, -15 for the
NPS-NaN line.  The other issue lines match none of the scanned
substrings. -/
def fbPenalty (df : DF) : ℚ :=
  let p1 : ℚ := if 0 < dupCount df then 20 else 0
  let p2 : ℚ :=
    match colCells df "Feedback_ID", colCells df "Transaccion_ID" with
    | some fc, some tc =>
      let keys := fc.zip tc
      if (dedupBy id keys).length < keys.length then 20 else 0
    | _, _ => 0
  let p3 : ℚ :=
    match colCells df "Edad_Cliente" with
    | none => 0
    | some cells =>
      let edad := cells.map toNumC
      (if 0 < edad.countP (fun v => qGtB v 110) then 15 else 0) +
      (if 0 < edad.countP (·.isNone) then 10 else 0)
  let p4 : ℚ :=
    match colCells df "Satisfaccion_NPS" with
    | none => 0
    | some cells =>
      if 0 < (cells.map toNumC).countP (·.isNone) then 15 else 0
  p1 + p2 + p3 + p4

/-- Lowercase substring test for "fecha" in a column name. -/
def startsWithL : Str → Str → Bool
  | _, [] => true
  | [], _ :: _ => false
  | c :: cs, x :: xs => c == x && startsWithL cs xs

/-- Substring containment on character lists. -/
def containsSub (pat : Str) : Str → Bool
  | [] => startsWithL [] pat
  | c :: cs => startsWithL (c :: cs) pat || containsSub pat cs

/-- The "fecha" in col.lower() scan of the transactions validations. -/
def nameHasFecha (c : String) : Bool :=
  containsSub "fecha".toList (c.toList.map Char.toLower)

/-- Transactions penalty (lines 1186-1204): -30 for the SKU-fantasma line,
-15 for the SKU-NaN line, -20 for the >999-days line, -10 for the
retrasadas (>100 days) line, and -15 per fecha-named column with NaT
values.  The Entrega_Outlier line needs a column no part of this
application ever creates, and the statistics lines are assumed not to
contain the scanned substrings (they can only collide when a formatted
number prints exactly "999"). -/
def trxPenalty (df : DF) : ℚ :=
  let pFant : ℚ :=
    match colCells df "SKU_Fantasma" with
    | none => 0
    | some cells => if 0 < cells.countP eqTrueC then 30 else 0
  let pSkuNa : ℚ :=
    match colCells df "SKU_ID" with
    | none => 0
    | some cells => if 0 < cells.countP isNullC then 15 else 0
  let pDeliv : ℚ :=
    match colCells df "Tiempo_Entrega_Real" with
    | none => 0
    | some cells =>
      let e := cells.map toNumC
      (if 0 < e.countP (fun v => qGtB v 999) then 20 else 0) +
      (if 0 < e.countP (fun v => qGtB v 100) then 10 else 0)
  let pDate : ℚ :=
    ((df.cols.filter nameHasFecha).map (fun c =>
      match colCells df c with
      | none => (0 : ℚ)
      | some cells => if 0 < cells.countP isNullC then (15 : ℚ) else 0)).sum
  pFant + pSkuNa + pDeliv + pDate

/-- The dataset-specific penalty block of the health score. -/
def datasetPenalty (kind : DKind) (df : DF) : ℚ :=
  match kind with
  | .inventario => invStockPenalty df
  | .feedback => fbPenalty df
  | .transacciones => trxPenalty df
  | .generic => 0

/-- The Health Report fields consumed by the claims; the remaining report
entries (numeric and categorical summaries, date issues, suggestions) are
read-only renderings that influence neither score nor status. -/
structure Health where
  rowsN : ℕ
  colsN : ℕ
  missingPct : List ℚ
  duplicates : ℕ
  missingRequiredCols : List String
  status : HStatus
  score : ℚ
deriving DecidableEq, Repr

/-- run_healthcheck (lines 799-1209): status is ok iff no required column
is missing; the score starts at 100, subtracts the summed missing
percentages / 10, 0.5 per duplicated row, and the dataset-specific
penalties, is rounded to 2 decimals and floored at 0 (max(0, round(score,
2)); the source has no upper clamp). -/
def run_healthcheck (df : DF) (req : List String) (kind : DKind) : Health :=
  let mp := missingPcts df
  let dups := dupCount df
  let mreq := missingRequired df req
  let raw : ℚ := 100 - mp.sum / 10 - (dups : ℚ) * (1/2) - datasetPenalty kind df
  { rowsN := df.rows.length, colsN := df.cols.length, missingPct := mp,
    duplicates := dups, missingRequiredCols := mreq,
    status := if mreq.isEmpty then HStatus.ok else HStatus.invalid,
    score := max 0 (roundQ2 raw) }

/-- run_healthcheck with the input table threaded as explicit state.  Every
statement of the source either reads df_raw, writes the local report
dictionary, or writes an explicitly .copy()-ed frame (the numeric and
categorical summary blocks); no statement assigns into df_raw, so the
threaded table is the one the caller passed in. -/
def run_healthcheck_st (df : DF) (req : List String) (kind : DKind) :
    Health × DF :=
  (run_healthcheck df req kind, df)


-- Concrete tables used by witnesses and counterexamples

/-- Concrete instantiation of C1: with an empty inventory, the single
transaction (SKU " C3 ", which normalizes to "C3") comes out PHANTOM, and
the theorem's equivalence is discharged at it. -/
def w1T : TrxRow :=
  { tid := "t1".toList, sku := some " C3 ".toList, fechaVenta := .null,
    cantidad := some 1, precio := some 50, costoEnvio := none,
    tiempo := none, ticket := none, fantasma := false }

def w1R : MRow := mkMerged w1T (normSku w1T.sku) none
def w2Inv : InvRow :=
  { sku := some "A1".toList, categoria := none, ultimaRevision := .null,
    stock := some 7, costo := some 4, punto := none, lead := some 3 }

def w2T : TrxRow :=
  { tid := "t1".toList, sku := some "A1".toList, fechaVenta := .null,
    cantidad := some 2, precio := some 10, costoEnvio := some 1,
    tiempo := some 6, ticket := some 1, fantasma := false }
def w2R : MRow :=
  mkMerged w2T (normSku w2T.sku) (some { w2Inv with sku := some (normSku w2Inv.sku) })
/-- Counterexample to C6 as stated: the inventory cleaner never removes
duplicated SKU_IDs, and a pandas left merge emits one row per matching
inventory row, so two inventory rows sharing SKU "A" blow a single
transaction up into two reconciled records. -/
def c6Inv : List InvRow :=
  [{ sku := some "A".toList, categoria := none, ultimaRevision := .null,
     stock := none, costo := some 4, punto := none, lead := none },
   { sku := some "A".toList, categoria := none, ultimaRevision := .null,
     stock := none, costo := some 6, punto := none, lead := none }]

def c6Trx : List TrxRow :=
  [{ tid := "t".toList, sku := some "A".toList, fechaVenta := .null,
     cantidad := some 1, precio := some 10, costoEnvio := none,
     tiempo := none, ticket := none, fantasma := false }]
def noParse : Str → Option ℤ := fun _ => none
def w7Row : InvRow :=
  { sku := some "S".toList, categoria := none, ultimaRevision := .null,
    stock := some 1, costo := some 2, punto := none, lead := some 5 }

/-- Failing input for the stock-imputation log entry: one recoverable
negative-stock row (stock -3, valid lead time) next to a healthy row. -/
def c4Rows : List InvRow :=
  [{ sku := some "A".toList, categoria := none, ultimaRevision := .null,
     stock := some (-3), costo := some 10, punto := none, lead := some 5 },
   { sku := some "B".toList, categoria := none, ultimaRevision := .null,
     stock := some 10, costo := some 10, punto := none, lead := some 5 }]

/-- The cleaned table for c4Rows: the first row's stock is imputed with
the median (10) of the non-negative stocks; nothing is removed. -/
def c4Clean : List InvRow :=
  [{ sku := some "A".toList, categoria := none, ultimaRevision := .null,
     stock := some 10, costo := some 10, punto := none, lead := some 5 },
   { sku := some "B".toList, categoria := none, ultimaRevision := .null,
     stock := some 10, costo := some 10, punto := none, lead := some 5 }]

/-- An inventory row with the given lead time (everything else benign). -/
def c5R (q : ℚ) : InvRow :=
  { sku := some "A".toList, categoria := none, ultimaRevision := .null,
    stock := some 0, costo := some 1, punto := none, lead := some q }

/-- Lead times 0,0,0,1,10: the first IQR pass removes only the 10. -/
def c5Rows : List InvRow := [c5R 0, c5R 0, c5R 0, c5R 1, c5R 10]

/-- After one cleaning pass: lead times 0,0,0,1. -/
def c5Clean1 : List InvRow := [c5R 0, c5R 0, c5R 0, c5R 1]

/-- After cleaning the cleaned table again: the recomputed IQR fence is
[-3/8, 5/8], so the row with lead time 1 is removed as well. -/
def c5Clean2 : List InvRow := [c5R 0, c5R 0, c5R 0]

/-- The row invariant established by the feedback cleaner on its output:
both ids are strip-fixed, the three age masks are false, and the
satisfaction score is present and inside [0, 10].  A second run removes or
rewrites nothing on rows satisfying it. -/
def fbInvariant (r : FbRow) : Prop :=
  stripL r.fid = r.fid ∧ stripL r.tid = r.tid ∧
  qLtB r.edad 0 = false ∧ qGtB r.edad 110 = false ∧ qLtB r.edad 13 = false ∧
  ∃ v, r.nps = some v ∧ 0 ≤ v ∧ v ≤ 10

/-- The removal cascade of the transactions cleaner after the tagging
step, parameterized by the SKU_Fantasma column presence flag. -/
def trxPipeline (hf : Bool) (now : ℤ) (d2 : List TrxRow) : List TrxRow :=
  trxStep9 now (trxStep8 (trxStep7 (trxStep6
    (if hf then trxStep5 (trxStep4 (trxStep3 d2)) else trxStep4 (trxStep3 d2)))))

/-- The row invariant established by the transactions removal cascade:
every removal mask is false (the PASO 5 mask only when the SKU_Fantasma
column exists). -/
def trxRowInv (hf : Bool) (now : ℤ) (r : TrxRow) : Prop :=
  (r.sku.isNone || decide (stripL (toStrCell r.sku) = [])) = false ∧
  qGtB r.tiempo 999 = false ∧
  (hf = true → (qGtB r.tiempo 120 && r.fantasma) = false) ∧
  (qLtB r.cantidad 0 && r.costoEnvio.isNone) = false ∧
  (qLtB r.cantidad 0 && qGtB r.tiempo 100) = false ∧
  qLtB r.cantidad 0 = false ∧
  futureB now r.fechaVenta = false

/-- A feedback row whose satisfaction score 55.555 exposes the rounding in
the scale-normalization step. -/
def c8Row : FbRow :=
  { fid := "f1".toList, tid := "t1".toList, edad := some 30,
    nps := some (55555/1000), extra := [] }

/-- Two feedback rows on the 0-100 scale (max 95), for the divide-by-10
branch: 95 normalizes to 9.5. -/
def w95Rows : List FbRow :=
  [{ fid := "f1".toList, tid := "t1".toList, edad := some 30,
     nps := some 95, extra := [] },
   { fid := "f2".toList, tid := "t2".toList, edad := some 40,
     nps := some 20, extra := [] }]

-- =========================================================================
-- Theorems
-- =========================================================================

theorem dedupByAux_length_le {α κ : Type} [DecidableEq κ] (f : α → κ)
    (seen : List κ) (l : List α) :
    (dedupByAux f seen l).length ≤ l.length := by
  induction l generalizing seen with
  | nil => simp [dedupByAux]
  | cons x xs ih =>
    by_cases h : f x ∈ seen
    · simp only [dedupByAux, if_pos h]
      exact le_trans (ih seen) (Nat.le_succ _)
    · simp only [dedupByAux, if_neg h, List.length_cons]
      exact Nat.succ_le_succ (ih _)

theorem dedupBy_length_le {α κ : Type} [DecidableEq κ] (f : α → κ)
    (l : List α) : (dedupBy f l).length ≤ l.length :=
  dedupByAux_length_le f [] l

theorem mem_of_mem_dedupByAux {α κ : Type} [DecidableEq κ] {f : α → κ}
    {seen : List κ} {l : List α} {x : α}
    (h : x ∈ dedupByAux f seen l) : x ∈ l := by
  induction l generalizing seen with
  | nil => simp [dedupByAux] at h
  | cons y ys ih =>
    by_cases hy : f y ∈ seen
    · simp only [dedupByAux, if_pos hy] at h
      exact List.mem_cons_of_mem y (ih h)
    · simp only [dedupByAux, if_neg hy, List.mem_cons] at h
      rcases h with h | h
      · exact h ▸ List.mem_cons_self y ys
      · exact List.mem_cons_of_mem y (ih h)

theorem mem_of_mem_dedupBy {α κ : Type} [DecidableEq κ] {f : α → κ}
    {l : List α} {x : α} (h : x ∈ dedupBy f l) : x ∈ l :=
  mem_of_mem_dedupByAux h

theorem dedupByAux_key_notin_seen {α κ : Type} [DecidableEq κ] {f : α → κ}
    (seen : List κ) (l : List α) :
    ∀ x ∈ dedupByAux f seen l, f x ∉ seen := by
  induction l generalizing seen with
  | nil => simp [dedupByAux]
  | cons y ys ih =>
    intro x hx
    by_cases hy : f y ∈ seen
    · simp only [dedupByAux, if_pos hy] at hx
      exact ih seen x hx
    · simp only [dedupByAux, if_neg hy, List.mem_cons] at hx
      rcases hx with rfl | hx
      · exact hy
      · have := ih (f y :: seen) x hx
        exact fun hmem => this (List.mem_cons_of_mem _ hmem)

theorem dedupByAux_pairwise {α κ : Type} [DecidableEq κ] {f : α → κ}
    (seen : List κ) (l : List α) :
    (dedupByAux f seen l).Pairwise (fun a b => f a ≠ f b) := by
  induction l generalizing seen with
  | nil => simp [dedupByAux]
  | cons y ys ih =>
    by_cases hy : f y ∈ seen
    · simpa only [dedupByAux, if_pos hy] using ih seen
    · simp only [dedupByAux, if_neg hy]
      refine List.Pairwise.cons ?_ (ih (f y :: seen))
      intro z hz
      have := dedupByAux_key_notin_seen (f y :: seen) ys z hz
      intro he
      exact this (he ▸ List.mem_cons_self _ _)

theorem dedupBy_pairwise {α κ : Type} [DecidableEq κ] (f : α → κ)
    (l : List α) : (dedupBy f l).Pairwise (fun a b => f a ≠ f b) :=
  dedupByAux_pairwise [] l

theorem dedupByAux_eq_self {α κ : Type} [DecidableEq κ] {f : α → κ} :
    ∀ {seen : List κ} {l : List α},
      l.Pairwise (fun a b => f a ≠ f b) → (∀ x ∈ l, f x ∉ seen) →
      dedupByAux f seen l = l := by
  intro seen l
  induction l generalizing seen with
  | nil => intro _ _; simp [dedupByAux]
  | cons y ys ih =>
    intro hp hs
    have hy : f y ∉ seen := hs y (List.mem_cons_self y ys)
    simp only [dedupByAux, if_neg hy]
    have hp' := List.pairwise_cons.mp hp
    refine congrArg (y :: ·) (ih hp'.2 ?_)
    intro x hx
    simp only [List.mem_cons]
    rintro (he | he)
    · exact hp'.1 x hx he.symm
    · exact hs x (List.mem_cons_of_mem y hx) he

theorem dedupBy_eq_self {α κ : Type} [DecidableEq κ] {f : α → κ}
    {l : List α} (h : l.Pairwise (fun a b => f a ≠ f b)) :
    dedupBy f l = l :=
  dedupByAux_eq_self h (by simp)

theorem map_id_of_mem {α : Type} {g : α → α} :
    ∀ l : List α, (∀ x ∈ l, g x = x) → l.map g = l := by
  intro l
  induction l with
  | nil => intro _; rfl
  | cons x xs ih =>
    intro h
    simp only [List.map_cons]
    rw [h x (List.mem_cons_self x xs), ih (fun y hy => h y (List.mem_cons_of_mem x hy))]

theorem mkMerged_status_none (t : TrxRow) (s : Str) :
    (mkMerged t s none).status = SkuStatus.fantasma := by
  simp [mkMerged]

theorem mkMerged_status_some (t : TrxRow) (s : Str) (i : InvRow) :
    (mkMerged t s (some i)).status = SkuStatus.valido := by
  simp [mkMerged]

theorem mkMerged_sku (t : TrxRow) (s : Str) (m : Option InvRow) :
    (mkMerged t s m).sku = s := by
  simp [mkMerged]

theorem invN_filter_eq_nil_iff (inv : List InvRow) (s : Str) :
    ((inv.map (fun i => { i with sku := some (normSku i.sku) })).filter
      (fun i => i.sku = some s)) = [] ↔ s ∉ invSkus inv := by
  rw [List.filter_eq_nil_iff]
  simp only [List.mem_map, invSkus, decide_eq_true_eq]
  constructor
  · rintro h ⟨i, hi, he⟩
    exact h _ ⟨i, hi, rfl⟩ (by simp [he])
  · rintro h x ⟨i, hi, rfl⟩ he
    simp only [Option.some.injEq] at he
    exact h ⟨i, hi, he⟩

/-- C1: every row of the reconciled table is PHANTOM iff its normalized
product identifier does not occur among the inventory's normalized product
identifiers (and VALID otherwise); membership is plain set membership of
the trimmed string-cast identifiers, with no fuzzy matching. -/
theorem C1_phantom_iff (inv : List InvRow) (trx : List TrxRow) (r : MRow)
    (hr : r ∈ fase2 inv trx) :
    r.status = SkuStatus.fantasma ↔ r.sku ∉ invSkus inv := by
  unfold fase2 at hr
  rw [List.mem_flatMap] at hr
  obtain ⟨t, _, hrt⟩ := hr
  by_cases hms :
      ((inv.map (fun i => { i with sku := some (normSku i.sku) })).filter
        (fun i => i.sku = some (normSku t.sku))) = []
  · rw [if_pos (by simp [hms])] at hrt
    have hre : r = mkMerged t (normSku t.sku) none := List.mem_singleton.mp hrt
    subst hre
    rw [mkMerged_status_none, mkMerged_sku]
    exact iff_of_true rfl ((invN_filter_eq_nil_iff inv _).mp hms)
  · rw [if_neg (by simpa [List.isEmpty_iff] using hms)] at hrt
    obtain ⟨i, hi, hre⟩ := List.mem_map.mp hrt
    subst hre
    rw [mkMerged_status_some, mkMerged_sku]
    have hmem : (normSku t.sku) ∈ invSkus inv := by
      by_contra hno
      exact (List.ne_nil_of_mem hi) ((invN_filter_eq_nil_iff inv _).mpr hno)
    constructor
    · intro h; exact absurd h (by simp)
    · intro h; exact absurd hmem h


theorem C1_phantom_iff_witness :
    w1R ∈ fase2 [] [w1T] ∧
      (w1R.status = SkuStatus.fantasma ↔ w1R.sku ∉ invSkus []) := by
  have hmem : w1R ∈ fase2 [] [w1T] := List.mem_singleton.mpr rfl
  exact ⟨hmem, C1_phantom_iff [] [w1T] w1R hmem⟩

theorem fase2_shape {inv : List InvRow} {trx : List TrxRow} {r : MRow}
    (hr : r ∈ fase2 inv trx) :
    ∃ t s m, r = mkMerged t s m := by
  unfold fase2 at hr
  rw [List.mem_flatMap] at hr
  obtain ⟨t, _, hrt⟩ := hr
  dsimp only at hrt
  split at hrt
  · exact ⟨t, _, none, List.mem_singleton.mp hrt⟩
  · obtain ⟨i, _, hre⟩ := List.mem_map.mp hrt
    exact ⟨t, _, some i, hre.symm⟩

/-- C2: on every reconciled row the derived fields satisfy, exactly over
the backfilled (fillna-0) numeric fields: revenue = quantity * unit price,
total cost = quantity * unit cost + shipping cost, margin = revenue -
total cost, margin pct = margin / revenue when revenue > 0 else 0, and
delivery gap = actual delivery days - promised lead-time days. -/
theorem C2_derived_fields (inv : List InvRow) (trx : List TrxRow) (r : MRow)
    (hr : r ∈ fase2 inv trx) :
    r.ingreso = r.cantidad * r.precio ∧
    r.costoTotal = r.cantidad * r.costoUnit + r.costoEnvio ∧
    r.margen = r.ingreso - r.costoTotal ∧
    r.margenPct = (if 0 < r.ingreso then r.margen / r.ingreso else 0) ∧
    r.brecha = r.tiempo - r.lead := by
  obtain ⟨t, s, m, rfl⟩ := fase2_shape hr
  refine ⟨?_, ?_, ?_, ?_, ?_⟩ <;> simp [mkMerged]



theorem C2_derived_fields_witness :
    w2R ∈ fase2 [w2Inv] [w2T] ∧
      (w2R.ingreso = w2R.cantidad * w2R.precio ∧
       w2R.costoTotal = w2R.cantidad * w2R.costoUnit + w2R.costoEnvio ∧
       w2R.margen = w2R.ingreso - w2R.costoTotal ∧
       w2R.margenPct = (if 0 < w2R.ingreso then w2R.margen / w2R.ingreso else 0) ∧
       w2R.brecha = w2R.tiempo - w2R.lead) := by
  have hmem : w2R ∈ fase2 [w2Inv] [w2T] := by
    have : fase2 [w2Inv] [w2T] = [w2R] := by
      simp +decide [fase2, w2R, normSku, toStrCell, stripL, isSpc]
    rw [this]
    exact List.mem_singleton.mpr rfl
  exact ⟨hmem, C2_derived_fields [w2Inv] [w2T] w2R hmem⟩


theorem C6_counterexample :
    (fase2 c6Inv c6Trx).length = 2 ∧ c6Trx.length = 1 := by
  constructor
  · simp +decide [fase2, c6Inv, c6Trx, normSku, toStrCell, stripL, isSpc]
  · rfl

theorem length_filter_key_le_one {α κ : Type} [DecidableEq κ]
    (f : α → κ) (c : κ) (l : List α) (h : (l.map f).Nodup) :
    (l.filter (fun x => decide (f x = c))).length ≤ 1 := by
  induction l with
  | nil => simp
  | cons x xs ih =>
    simp only [List.map_cons, List.nodup_cons] at h
    by_cases hx : f x = c
    · rw [List.filter_cons_of_pos (by simpa using hx)]
      have : xs.filter (fun y => decide (f y = c)) = [] := by
        rw [List.filter_eq_nil_iff]
        intro y hy
        simp only [decide_eq_true_eq]
        intro he
        exact h.1 (List.mem_map.mpr ⟨y, hy, (he.trans hx.symm)⟩)
      simp [this]
    · rw [List.filter_cons_of_neg (by simpa using hx)]
      exact ih h.2

/-- C6 amended: the merge emits one reconciled record per pair of a
transaction and a matching inventory row (at least one per transaction);
when the normalized inventory identifiers are duplicate-free - the
intended shape of an inventory of record - the reconciled table has
exactly one record per cleaned transaction row. -/
theorem C6_amended_count (inv : List InvRow) (trx : List TrxRow)
    (h : (invSkus inv).Nodup) :
    (fase2 inv trx).length = trx.length := by
  induction trx with
  | nil => rfl
  | cons t ts ih =>
    have hstep :
        fase2 inv (t :: ts) =
          (let s := normSku t.sku
           let ms := (inv.map (fun i => { i with sku := some (normSku i.sku) })).filter
             (fun i => i.sku = some s)
           if ms.isEmpty then [mkMerged t s none]
           else ms.map (fun i => mkMerged t s (some i))) ++ fase2 inv ts := by
      simp [fase2, List.flatMap_cons]
    rw [hstep, List.length_append, ih]
    have hone :
        (let s := normSku t.sku
         let ms := (inv.map (fun i => { i with sku := some (normSku i.sku) })).filter
           (fun i => i.sku = some s)
         if ms.isEmpty then [mkMerged t s none]
         else ms.map (fun i => mkMerged t s (some i))).length = 1 := by
      have hnodup :
          ((inv.map (fun i => { i with sku := some (normSku i.sku) })).map
            (fun i : InvRow => i.sku)).Nodup := by
        have : (inv.map (fun i => { i with sku := some (normSku i.sku) })).map
            (fun i : InvRow => i.sku) = (invSkus inv).map some := by
          simp [invSkus, List.map_map]
        rw [this]
        exact h.map (fun a b => by simp)
      have hle2 : ((inv.map (fun i => { i with sku := some (normSku i.sku) })).filter
          (fun i => i.sku = some (normSku t.sku))).length ≤ 1 :=
        length_filter_key_le_one (fun i : InvRow => i.sku)
          (some (normSku t.sku))
          (inv.map (fun i => { i with sku := some (normSku i.sku) })) hnodup
      by_cases he :
          ((inv.map (fun i => { i with sku := some (normSku i.sku) })).filter
            (fun i => i.sku = some (normSku t.sku))).isEmpty
      · simp only [if_pos he]
        rfl
      · simp only [if_neg he, List.length_map]
        have hpos : 0 < ((inv.map (fun i => { i with sku := some (normSku i.sku) })).filter
            (fun i => i.sku = some (normSku t.sku))).length := by
          rcases Nat.eq_zero_or_pos ((inv.map
              (fun i => { i with sku := some (normSku i.sku) })).filter
              (fun i => i.sku = some (normSku t.sku))).length with h0 | hp
          · exact absurd (List.isEmpty_iff.mpr (List.length_eq_zero.mp h0)) he
          · exact hp
        omega
    rw [hone, List.length_cons]
    omega

theorem C6_amended_count_witness :
    ((invSkus [w2Inv]).Nodup) ∧ (fase2 [w2Inv] [w2T]).length = [w2T].length := by
  have hn : (invSkus [w2Inv]).Nodup := by
    simp [invSkus]
  exact ⟨hn, C6_amended_count [w2Inv] [w2T] hn⟩

theorem fbStep1_le (l : List FbRow) : (fbStep1 l).length ≤ l.length :=
  dedupBy_length_le _ _

theorem fbStripIds_length (l : List FbRow) : (fbStripIds l).length = l.length := by
  simp [fbStripIds]

theorem fbStep2_le (l : List FbRow) : (fbStep2 l).length ≤ l.length :=
  le_trans (dedupBy_length_le _ _) (le_of_eq (fbStripIds_length l))

theorem fbStep3_le (l : List FbRow) : (fbStep3 l).length ≤ l.length :=
  List.length_filter_le _ _

theorem fbStep4_le (l : List FbRow) : (fbStep4 l).length ≤ l.length :=
  List.length_filter_le _ _

theorem fbStep5_le (l : List FbRow) : (fbStep5 l).length ≤ l.length :=
  List.length_filter_le _ _

theorem fbAbs_length (l : List FbRow) : (fbAbs l).length = l.length := by
  simp [fbAbs]

theorem fbScale_length (l : List FbRow) : (fbScale l).length = l.length := by
  unfold fbScale
  cases hm : listMax (npsVals l) with
  | none => rfl
  | some mx =>
    dsimp only
    split_ifs <;> simp

theorem fbStep8_le (l : List FbRow) : (fbStep8 l).length ≤ l.length :=
  List.length_filter_le _ _

theorem fbStep9_le (l : List FbRow) : (fbStep9 l).length ≤ l.length :=
  List.length_filter_le _ _

theorem invParse_length (p : Str → Option ℤ) (l : List InvRow) :
    (invParse p l).length = l.length := by
  simp [invParse]

theorem invLeadFilter_le (l : List InvRow) :
    (invLeadFilter l).length ≤ l.length :=
  List.length_filter_le _ _

theorem invCostoPos_le (l : List InvRow) :
    (invCostoPos l).length ≤ l.length :=
  List.length_filter_le _ _

theorem invCostoIQR_le (l : List InvRow) :
    (invCostoIQR l).length ≤ l.length := by
  unfold invCostoIQR
  split_ifs
  · exact le_rfl
  · exact List.length_filter_le _ _

theorem invStock5A_le (l : List InvRow) :
    (invStock5A l).length ≤ l.length :=
  List.length_filter_le _ _

theorem invImpute_length (l : List InvRow) :
    (invImpute l).length = l.length := by
  unfold invImpute
  split_ifs <;> simp

theorem invStock5C_le (l : List InvRow) :
    (invStock5C l).length ≤ l.length :=
  List.length_filter_le _ _

theorem trxParse_length (p : Str → Option ℤ) (l : List TrxRow) :
    (trxParse p l).length = l.length := by
  simp [trxParse]

theorem trxTag_length (inv : List InvRow) (l : List TrxRow) :
    (trxTag inv l).length = l.length := by
  simp [trxTag]

theorem trxStep3_le (l : List TrxRow) : (trxStep3 l).length ≤ l.length :=
  List.length_filter_le _ _

theorem trxStep4_le (l : List TrxRow) : (trxStep4 l).length ≤ l.length :=
  List.length_filter_le _ _

theorem trxStep5_le (l : List TrxRow) : (trxStep5 l).length ≤ l.length :=
  List.length_filter_le _ _

theorem trxStep6_le (l : List TrxRow) : (trxStep6 l).length ≤ l.length :=
  List.length_filter_le _ _

theorem trxStep7_le (l : List TrxRow) : (trxStep7 l).length ≤ l.length :=
  List.length_filter_le _ _

theorem trxStep8_le (l : List TrxRow) : (trxStep8 l).length ≤ l.length :=
  List.length_filter_le _ _

theorem trxStep9_le (now : ℤ) (l : List TrxRow) :
    (trxStep9 now l).length ≤ l.length :=
  List.length_filter_le _ _

/-- C7: every Dataset Cleaner returns a cleaned table with at most as many
rows as the raw table it was given (the inventory cleaner, which can raise
on a lead-time column with no valid value, satisfies this on every run
that returns). -/
theorem C7_cleaned_le_raw :
    (∀ rows : List FbRow, (cargar_feedback rows).1.length ≤ rows.length) ∧
    (∀ (p : Str → Option ℤ) (rows : List InvRow) (pr : List InvRow × List LogEntry),
      cargar_inventario p rows = .ok pr → pr.1.length ≤ rows.length) ∧
    (∀ (p : Str → Option ℤ) (invOpt : Option (List InvRow)) (now : ℤ) (t : TrxTable),
      ((cargar_transacciones p invOpt now t).1).rows.length ≤ t.rows.length) := by
  refine ⟨?_, ?_, ?_⟩
  · intro rows
    show (fbStep9 (fbStep8 (fbScale (fbAbs (fbStep5 (fbStep4
      (fbStep3 (fbStep2 (fbStep1 rows))))))))).length ≤ rows.length
    refine le_trans (fbStep9_le _) (le_trans (fbStep8_le _) ?_)
    rw [fbScale_length, fbAbs_length]
    exact le_trans (fbStep5_le _) (le_trans (fbStep4_le _)
      (le_trans (fbStep3_le _) (le_trans (fbStep2_le _) (fbStep1_le _))))
  · intro p rows pr h
    unfold cargar_inventario at h
    dsimp only at h
    split at h
    · simp at h
    · simp only [Except.ok.injEq] at h
      subst h
      refine le_trans (invStock5C_le _) ?_
      rw [invImpute_length]
      refine le_trans (invStock5A_le _) (le_trans (invCostoIQR_le _)
        (le_trans (invCostoPos_le _) (le_trans (invLeadFilter_le _) ?_)))
      rw [invParse_length]
  · intro p invOpt now t
    have hX : ∀ d2 : List TrxRow, d2.length ≤ t.rows.length →
        ∀ pr : List TrxRow × List LogEntry,
          (pr.1 = trxStep5 (trxStep4 (trxStep3 d2)) ∨
            pr.1 = trxStep4 (trxStep3 d2)) →
          (trxStep9 now (trxStep8 (trxStep7 (trxStep6 pr.1)))).length ≤
            t.rows.length := by
      intro d2 hd2 pr hpr
      refine le_trans (trxStep9_le _ _) (le_trans (trxStep8_le _)
        (le_trans (trxStep7_le _) (le_trans (trxStep6_le _) ?_)))
      rcases hpr with hpr | hpr <;> rw [hpr]
      · exact le_trans (trxStep5_le _) (le_trans (trxStep4_le _)
          (le_trans (trxStep3_le _) hd2))
      · exact le_trans (trxStep4_le _) (le_trans (trxStep3_le _) hd2)
    unfold cargar_transacciones
    cases invOpt with
    | none =>
      dsimp only
      split
      · exact hX (trxParse p t.rows) (le_of_eq (trxParse_length p t.rows)) _
          (Or.inl rfl)
      · exact hX (trxParse p t.rows) (le_of_eq (trxParse_length p t.rows)) _
          (Or.inr rfl)
    | some inv =>
      dsimp only
      split
      · exact hX (trxTag inv (trxParse p t.rows))
          (le_of_eq ((trxTag_length _ _).trans (trxParse_length p t.rows))) _
          (Or.inl rfl)
      · exact hX (trxTag inv (trxParse p t.rows))
          (le_of_eq ((trxTag_length _ _).trans (trxParse_length p t.rows))) _
          (Or.inr rfl)

/-- Example evaluation: the spec scenario, inventory keys A1 and B2,
transactions for A1 and C3. -/
example :
    (fase2
      [{ sku := some "A1".toList, categoria := none, ultimaRevision := .null,
         stock := none, costo := some 4, punto := none, lead := none }]
      [{ tid := "t1".toList, sku := some "A1".toList, fechaVenta := .null,
         cantidad := some 2, precio := some 10, costoEnvio := none,
         tiempo := none, ticket := none, fantasma := false },
       { tid := "t2".toList, sku := some "C3".toList, fechaVenta := .null,
         cantidad := some 1, precio := some 50, costoEnvio := none,
         tiempo := none, ticket := none, fantasma := false }]).map
      (fun r => (r.status, r.ingreso, r.costoTotal, r.margen)) =
    [(SkuStatus.valido, 20, 8, 12), (SkuStatus.fantasma, 50, 0, 50)] := by
  norm_num +decide [fase2, mkMerged, normSku, toStrCell, stripL, isSpc, qtrunc]



theorem dropWhile_cases (p : Char → Bool) (l : Str) :
    l.dropWhile p = [] ∨ ∃ a t, l.dropWhile p = a :: t ∧ p a = false := by
  induction l with
  | nil => exact Or.inl rfl
  | cons x xs ih =>
    by_cases h : p x = true
    · rw [List.dropWhile_cons, if_pos h]
      exact ih
    · exact Or.inr ⟨x, xs, by rw [List.dropWhile_cons, if_neg h],
        Bool.not_eq_true _ ▸ h⟩

theorem exists_append_dropWhile (p : Char → Bool) (l : Str) :
    ∃ u, l = u ++ l.dropWhile p := by
  induction l with
  | nil => exact ⟨[], rfl⟩
  | cons x xs ih =>
    by_cases h : p x = true
    · obtain ⟨u, hu⟩ := ih
      refine ⟨x :: u, ?_⟩
      rw [List.dropWhile_cons, if_pos h, List.cons_append]
      exact congrArg (x :: ·) hu
    · exact ⟨[], by rw [List.dropWhile_cons, if_neg h]; rfl⟩

theorem stripL_of_clean {l : Str} (h1 : l.dropWhile isSpc = l)
    (h2 : l.reverse.dropWhile isSpc = l.reverse) : stripL l = l := by
  unfold stripL
  rw [h1, h2, List.reverse_reverse]

theorem dropWhile_stripL (l : Str) :
    (stripL l).dropWhile isSpc = stripL l := by
  obtain ⟨u, hu⟩ := exists_append_dropWhile isSpc (l.dropWhile isSpc).reverse
  have hAeq : l.dropWhile isSpc = stripL l ++ u.reverse := by
    have := congrArg List.reverse hu
    rw [List.reverse_reverse, List.reverse_append] at this
    exact this
  rcases dropWhile_cases isSpc l with h0 | ⟨a, t, hat, hpa⟩
  · have hnil : stripL l = [] := by
      rw [h0] at hAeq
      exact (List.append_eq_nil.mp hAeq.symm).1
    rw [hnil]
    rfl
  · cases hs : stripL l with
    | nil => rfl
    | cons b bs =>
      have hab : a = b := by
        rw [hat, hs, List.cons_append] at hAeq
        exact (List.cons.injEq _ _ _ _).mp hAeq |>.1
      rw [List.dropWhile_cons, if_neg (by rw [← hab, hpa]; simp)]

theorem rev_dropWhile_stripL (l : Str) :
    (stripL l).reverse.dropWhile isSpc = (stripL l).reverse := by
  unfold stripL
  rw [List.reverse_reverse]
  exact List.dropWhile_idempotent _ _

theorem stripL_idem (l : Str) : stripL (stripL l) = stripL l :=
  stripL_of_clean (dropWhile_stripL l) (rev_dropWhile_stripL l)

theorem parseDV_idem (p : Str → Option ℤ) (d : DVal) :
    parseDV p (parseDV p d) = parseDV p d := by
  cases d with
  | raw s =>
    cases hp : p s <;> simp [parseDV, hp]
  | date d => rfl
  | null => rfl

/-- C4 (code bug): evaluating the inventory cleaner on a table with one
recoverable negative-stock row.  The run removes no rows (the cleaned
table keeps both rows, the first imputed to the median stock 10), yet the
final entry of the cleaning log is the imputation entry recorded with
rows_before = 1 (the number of imputed rows) and rows_after = 0, which is
not the table's row count at that step (2), contradicting log_step's own
documentation of the two arguments. -/
theorem C4_final_log_entry_bug :
    cargar_inventario noParse c4Rows =
      .ok (c4Clean, [⟨2, 2⟩, ⟨2, 2⟩, ⟨2, 2⟩, ⟨2, 2⟩, ⟨2, 2⟩, ⟨1, 0⟩]) ∧
    c4Clean.length = 2 := by
  constructor
  · norm_num [cargar_inventario, invParse, parseDV, noParse, leadVals,
      invLeadFilter, quantileQ, sortQ, insSorted, costoVals, invCostoPos,
      invCostoIQR, invStock5A, invImpute, invRecupB, invStock5C,
      qGeB, qLeB, qLtB, medianQ, c4Rows, c4Clean]
    simp
  · rfl

/-- Counterexample to C5 as stated: the inventory cleaner is not a fixed
point of its own output.  On lead times 0,0,0,1,10 the first pass removes
only the 10 (IQR fence [-3/2, 5/2]); rerunning the cleaner on the cleaned
table recomputes the quantiles (fence [-3/8, 5/8]) and removes the row
with lead time 1: one additional row, not zero. -/
theorem C5_counterexample :
    cargar_inventario noParse c5Rows =
      .ok (c5Clean1, [⟨5, 5⟩, ⟨5, 4⟩, ⟨4, 4⟩, ⟨4, 4⟩, ⟨4, 4⟩]) ∧
    cargar_inventario noParse c5Clean1 =
      .ok (c5Clean2, [⟨4, 4⟩, ⟨4, 3⟩, ⟨3, 3⟩, ⟨3, 3⟩, ⟨3, 3⟩]) := by
  constructor
  · have hparse : invParse noParse c5Rows = c5Rows := by
      simp [invParse, parseDV, noParse, c5Rows, c5R]
    have hlv : leadVals c5Rows = [0, 0, 0, 1, 10] := by
      simp [leadVals, c5Rows, c5R]
    have hq1 : quantileQ (1/4) [(0:ℚ), 0, 0, 1, 10] = 0 := by
      norm_num [quantileQ, sortQ, insSorted, Int.toNat_ofNat]
      all_goals simp
      all_goals norm_num
    have hq3 : quantileQ (3/4) [(0:ℚ), 0, 0, 1, 10] = 1 := by
      norm_num [quantileQ, sortQ, insSorted, Int.toNat_ofNat]
      all_goals simp
      all_goals norm_num
    have hlead : invLeadFilter c5Rows = c5Clean1 := by
      unfold invLeadFilter
      rw [hlv, hq1, hq3]
      norm_num [c5Rows, c5Clean1, c5R, qGeB, qLeB]
    have hcpos : invCostoPos c5Clean1 = c5Clean1 := by
      norm_num [invCostoPos, qLeB, c5Clean1, c5R]
    have hcv : costoVals c5Clean1 = [1, 1, 1, 1] := by
      simp [costoVals, c5Clean1, c5R]
    have hcq1 : quantileQ (1/4) [(1:ℚ), 1, 1, 1] = 1 := by
      norm_num [quantileQ, sortQ, insSorted, Int.toNat_ofNat]
      all_goals simp
      all_goals norm_num
    have hcq3 : quantileQ (3/4) [(1:ℚ), 1, 1, 1] = 1 := by
      norm_num [quantileQ, sortQ, insSorted, Int.toNat_ofNat]
      all_goals simp
      all_goals norm_num
    have hciqr : invCostoIQR c5Clean1 = c5Clean1 := by
      unfold invCostoIQR
      rw [hcv, hcq1, hcq3]
      norm_num [c5Clean1, c5R, qGeB, qLeB]
    have h5a : invStock5A c5Clean1 = c5Clean1 := by
      norm_num [invStock5A, qLtB, c5Clean1, c5R]
    have himp : invImpute c5Clean1 = c5Clean1 := by
      norm_num [invImpute, invRecupB, qLtB, c5Clean1, c5R]
    have h5c : invStock5C c5Clean1 = c5Clean1 := by
      norm_num [invStock5C, qLtB, c5Clean1, c5R]
    unfold cargar_inventario
    dsimp only
    rw [hparse, hlv, hlead, hcpos, hciqr, h5a, himp, h5c, hcv]
    norm_num [c5Rows, c5Clean1, c5R, invRecupB, qLtB]
  · have hparse : invParse noParse c5Clean1 = c5Clean1 := by
      simp [invParse, parseDV, noParse, c5Clean1, c5R]
    have hlv : leadVals c5Clean1 = [0, 0, 0, 1] := by
      simp [leadVals, c5Clean1, c5R]
    have hq1 : quantileQ (1/4) [(0:ℚ), 0, 0, 1] = 0 := by
      norm_num [quantileQ, sortQ, insSorted, Int.toNat_ofNat]
      all_goals simp
      all_goals norm_num
    have hq3 : quantileQ (3/4) [(0:ℚ), 0, 0, 1] = 1/4 := by
      norm_num [quantileQ, sortQ, insSorted, Int.toNat_ofNat]
      all_goals simp
      all_goals norm_num
    have hlead : invLeadFilter c5Clean1 = c5Clean2 := by
      unfold invLeadFilter
      rw [hlv, hq1, hq3]
      norm_num [c5Clean1, c5Clean2, c5R, qGeB, qLeB]
    have hcpos : invCostoPos c5Clean2 = c5Clean2 := by
      norm_num [invCostoPos, qLeB, c5Clean2, c5R]
    have hcv : costoVals c5Clean2 = [1, 1, 1] := by
      simp [costoVals, c5Clean2, c5R]
    have hcq1 : quantileQ (1/4) [(1:ℚ), 1, 1] = 1 := by
      norm_num [quantileQ, sortQ, insSorted, Int.toNat_ofNat]
      all_goals simp
      all_goals norm_num
    have hcq3 : quantileQ (3/4) [(1:ℚ), 1, 1] = 1 := by
      norm_num [quantileQ, sortQ, insSorted, Int.toNat_ofNat]
      all_goals simp
      all_goals norm_num
    have hciqr : invCostoIQR c5Clean2 = c5Clean2 := by
      unfold invCostoIQR
      rw [hcv, hcq1, hcq3]
      norm_num [c5Clean2, c5R, qGeB, qLeB]
    have h5a : invStock5A c5Clean2 = c5Clean2 := by
      norm_num [invStock5A, qLtB, c5Clean2, c5R]
    have himp : invImpute c5Clean2 = c5Clean2 := by
      norm_num [invImpute, invRecupB, qLtB, c5Clean2, c5R]
    have h5c : invStock5C c5Clean2 = c5Clean2 := by
      norm_num [invStock5C, qLtB, c5Clean2, c5R]
    unfold cargar_inventario
    dsimp only
    rw [hparse, hlv, hlead, hcpos, hciqr, h5a, himp, h5c, hcv]
    norm_num [c5Clean1, c5Clean2, c5R, invRecupB, qLtB]

theorem C7_cleaned_le_raw_witness :
    cargar_inventario noParse [w7Row] =
      .ok ([w7Row], [⟨1, 1⟩, ⟨1, 1⟩, ⟨1, 1⟩, ⟨1, 1⟩, ⟨1, 1⟩]) ∧
    ([w7Row], ([⟨1, 1⟩, ⟨1, 1⟩, ⟨1, 1⟩, ⟨1, 1⟩, ⟨1, 1⟩] : List LogEntry)).1.length ≤
      [w7Row].length := by
  have h : cargar_inventario noParse [w7Row] =
      .ok ([w7Row], [⟨1, 1⟩, ⟨1, 1⟩, ⟨1, 1⟩, ⟨1, 1⟩, ⟨1, 1⟩]) := by
    norm_num [cargar_inventario, invParse, parseDV, noParse, leadVals,
      invLeadFilter, quantileQ, sortQ, insSorted, costoVals, invCostoPos,
      invCostoIQR, invStock5A, invImpute, invRecupB, invStock5C,
      qGeB, qLeB, qLtB, medianQ, w7Row]
    simp
  exact ⟨h, C7_cleaned_le_raw.2.1 noParse [w7Row] _ h⟩

theorem pairwise_ne_of_key {l : List FbRow}
    (h : l.Pairwise (fun a b => fbKey a ≠ fbKey b)) :
    l.Pairwise (fun a b : FbRow => a ≠ b) :=
  h.imp (fun hab he => hab (congrArg fbKey he))

theorem pairwise_key_map (g : FbRow → FbRow) (hg : ∀ r, fbKey (g r) = fbKey r)
    {l : List FbRow} (h : l.Pairwise (fun a b => fbKey a ≠ fbKey b)) :
    (l.map g).Pairwise (fun a b => fbKey a ≠ fbKey b) := by
  rw [List.pairwise_map]
  exact h.imp (fun {a b} hab => by rw [hg, hg]; exact hab)

theorem pairwise_key_sublist {l₁ l₂ : List FbRow} (hs : l₁.Sublist l₂)
    (h : l₂.Pairwise (fun a b => fbKey a ≠ fbKey b)) :
    l₁.Pairwise (fun a b => fbKey a ≠ fbKey b) :=
  h.sublist hs

theorem fbScale_cases (l : List FbRow) :
    fbScale l = l ∨
      ∃ g : ℚ → ℚ, fbScale l = l.map (fun r => { r with nps := r.nps.map g }) := by
  unfold fbScale
  cases listMax (npsVals l) with
  | none => exact Or.inl rfl
  | some mx =>
    dsimp only
    split_ifs
    · exact Or.inr ⟨fun v => roundQ2 (v / 10), rfl⟩
    · exact Or.inr ⟨_, rfl⟩
    · exact Or.inl rfl
    · exact Or.inl rfl

theorem fbClean_eq (rows : List FbRow) :
    (cargar_feedback rows).1 =
      fbStep9 (fbStep8 (fbScale (fbAbs (fbStep5 (fbStep4
        (fbStep3 (fbStep2 (fbStep1 rows)))))))) := rfl

theorem fbClean_pairwise (rows : List FbRow) :
    ((cargar_feedback rows).1).Pairwise (fun a b => fbKey a ≠ fbKey b) := by
  rw [fbClean_eq]
  have h2 : (fbStep2 (fbStep1 rows)).Pairwise (fun a b => fbKey a ≠ fbKey b) :=
    dedupBy_pairwise fbKey _
  have h5 : (fbStep5 (fbStep4 (fbStep3 (fbStep2 (fbStep1 rows))))).Pairwise
      (fun a b => fbKey a ≠ fbKey b) :=
    pairwise_key_sublist (List.filter_sublist _)
      (pairwise_key_sublist (List.filter_sublist _)
        (pairwise_key_sublist (List.filter_sublist _) h2))
  have h6 : (fbAbs (fbStep5 (fbStep4 (fbStep3 (fbStep2 (fbStep1 rows)))))).Pairwise
      (fun a b => fbKey a ≠ fbKey b) :=
    pairwise_key_map (fun r => { r with nps := r.nps.map (fun v => |v|) })
      (fun r => rfl) h5
  have h7 : (fbScale (fbAbs (fbStep5 (fbStep4 (fbStep3 (fbStep2
      (fbStep1 rows))))))).Pairwise (fun a b => fbKey a ≠ fbKey b) := by
    rcases fbScale_cases (fbAbs (fbStep5 (fbStep4 (fbStep3 (fbStep2
      (fbStep1 rows)))))) with hc | ⟨g, hc⟩
    · rw [hc]; exact h6
    · rw [hc]
      exact pairwise_key_map (fun r => { r with nps := r.nps.map g })
        (fun r => rfl) h6
  exact pairwise_key_sublist (List.filter_sublist _)
    (pairwise_key_sublist (List.filter_sublist _) h7)

theorem mem_fbClean {rows : List FbRow} {r : FbRow}
    (hr : r ∈ (cargar_feedback rows).1) : fbInvariant r := by
  rw [fbClean_eq] at hr
  obtain ⟨hr8, hm9⟩ := List.mem_filter.mp hr
  obtain ⟨hr7, hm8⟩ := List.mem_filter.mp hr8
  have hnps : ∃ v, r.nps = some v ∧ 0 ≤ v ∧ v ≤ 10 := by
    cases hn : r.nps with
    | none => rw [hn] at hm8; simp at hm8
    | some v =>
      refine ⟨v, rfl, ?_, ?_⟩
      · rw [Bool.not_eq_true', Bool.or_eq_false_iff] at hm9
        have := hm9.1
        rw [hn] at this
        simp only [qLtB, decide_eq_false_iff_not, not_lt] at this
        exact this
      · rw [Bool.not_eq_true', Bool.or_eq_false_iff] at hm9
        have := hm9.2
        rw [hn] at this
        simp only [qGtB, decide_eq_false_iff_not, not_lt] at this
        exact this
  have hback : ∃ y, y ∈ fbStep5 (fbStep4 (fbStep3 (fbStep2 (fbStep1 rows)))) ∧
      r.fid = y.fid ∧ r.tid = y.tid ∧ r.edad = y.edad := by
    rcases fbScale_cases (fbAbs (fbStep5 (fbStep4 (fbStep3 (fbStep2
        (fbStep1 rows)))))) with hc | ⟨g, hc⟩
    · rw [hc] at hr7
      obtain ⟨y, hy, he⟩ := List.mem_map.mp hr7
      exact ⟨y, hy, by rw [← he], by rw [← he], by rw [← he]⟩
    · rw [hc] at hr7
      obtain ⟨x, hx, hex⟩ := List.mem_map.mp hr7
      obtain ⟨y, hy, hey⟩ := List.mem_map.mp hx
      refine ⟨y, hy, ?_, ?_, ?_⟩ <;> rw [← hex, ← hey]
  obtain ⟨y, hy5, hfid, htid, hedad⟩ := hback
  obtain ⟨hy4, hm5⟩ := List.mem_filter.mp hy5
  obtain ⟨hy3, hm4⟩ := List.mem_filter.mp hy4
  obtain ⟨hy2, hm3⟩ := List.mem_filter.mp hy3
  have hy2' : y ∈ fbStripIds (fbStep1 rows) := mem_of_mem_dedupBy hy2
  obtain ⟨z, _, hez⟩ := List.mem_map.mp hy2'
  refine ⟨?_, ?_, ?_, ?_, ?_, hnps⟩
  · rw [hfid, ← hez]
    exact stripL_idem z.fid
  · rw [htid, ← hez]
    exact stripL_idem z.tid
  · rw [hedad]
    simpa using hm3
  · rw [hedad]
    simpa using hm4
  · rw [hedad]
    simpa using hm5

theorem fbStep1_fix {c : List FbRow}
    (hp : c.Pairwise (fun a b => fbKey a ≠ fbKey b)) : fbStep1 c = c :=
  dedupBy_eq_self (pairwise_ne_of_key hp)

theorem fbStripIds_fix {c : List FbRow} (hi : ∀ r ∈ c, fbInvariant r) :
    fbStripIds c = c := by
  apply map_id_of_mem
  intro r hr
  obtain ⟨h1, h2, -, -, -, -⟩ := hi r hr
  cases r
  simp only at h1 h2
  simp [h1, h2]

theorem fbStep2_fix {c : List FbRow}
    (hp : c.Pairwise (fun a b => fbKey a ≠ fbKey b))
    (hi : ∀ r ∈ c, fbInvariant r) : fbStep2 c = c := by
  unfold fbStep2
  rw [fbStripIds_fix hi]
  exact dedupBy_eq_self hp

theorem fbStep3_fix {c : List FbRow} (hi : ∀ r ∈ c, fbInvariant r) :
    fbStep3 c = c :=
  List.filter_eq_self.mpr (fun r hr => by
    obtain ⟨-, -, h, -, -, -⟩ := hi r hr
    simp [h])

theorem fbStep4_fix {c : List FbRow} (hi : ∀ r ∈ c, fbInvariant r) :
    fbStep4 c = c :=
  List.filter_eq_self.mpr (fun r hr => by
    obtain ⟨-, -, -, h, -, -⟩ := hi r hr
    simp [h])

theorem fbStep5_fix {c : List FbRow} (hi : ∀ r ∈ c, fbInvariant r) :
    fbStep5 c = c :=
  List.filter_eq_self.mpr (fun r hr => by
    obtain ⟨-, -, -, -, h, -⟩ := hi r hr
    simp [h])

theorem fbAbs_fix {c : List FbRow} (hi : ∀ r ∈ c, fbInvariant r) :
    fbAbs c = c := by
  apply map_id_of_mem
  intro r hr
  obtain ⟨-, -, -, -, -, v, hv, h0, -⟩ := hi r hr
  cases r
  simp only at hv
  rw [hv]
  simp [abs_of_nonneg h0]

theorem listMax_le {l : List ℚ} {m c : ℚ} (hm : listMax l = some m)
    (h : ∀ v ∈ l, v ≤ c) : m ≤ c := by
  induction l generalizing m with
  | nil => simp [listMax] at hm
  | cons x xs ih =>
    rw [listMax] at hm
    cases hxs : listMax xs with
    | none =>
      rw [hxs] at hm
      injection hm with hm
      exact hm ▸ h x (List.mem_cons_self x xs)
    | some m2 =>
      rw [hxs] at hm
      injection hm with hm
      rw [← hm]
      exact max_le (h x (List.mem_cons_self x xs))
        (ih hxs (fun v hv => h v (List.mem_cons_of_mem x hv)))

theorem fbScale_fix {c : List FbRow} (hi : ∀ r ∈ c, fbInvariant r) :
    fbScale c = c := by
  unfold fbScale
  cases hm : listMax (npsVals c) with
  | none => rfl
  | some mx =>
    dsimp only
    have hle : mx ≤ 10 := by
      refine listMax_le hm (fun v hv => ?_)
      obtain ⟨r, hr, hnv⟩ := List.mem_filterMap.mp hv
      obtain ⟨-, -, -, -, -, w, hw, -, h10⟩ := hi r hr
      rw [hw] at hnv
      injection hnv with hnv
      exact hnv ▸ h10
    split_ifs with h1 h2 h3
    · exact absurd h1.1 (by linarith)
    · exact absurd h2 (by linarith)
    · exact absurd h2 (by linarith)
    · rfl

theorem fbStep8_fix {c : List FbRow} (hi : ∀ r ∈ c, fbInvariant r) :
    fbStep8 c = c :=
  List.filter_eq_self.mpr (fun r hr => by
    obtain ⟨-, -, -, -, -, v, hv, -, -⟩ := hi r hr
    simp [hv])

theorem fbStep9_fix {c : List FbRow} (hi : ∀ r ∈ c, fbInvariant r) :
    fbStep9 c = c :=
  List.filter_eq_self.mpr (fun r hr => by
    obtain ⟨-, -, -, -, -, v, hv, h0, h10⟩ := hi r hr
    simp [qLtB, qGtB, hv, not_lt]
    exact ⟨h0, h10⟩)

theorem cargar_feedback_idem (rows : List FbRow) :
    (cargar_feedback (cargar_feedback rows).1).1 = (cargar_feedback rows).1 := by
  have hp := fbClean_pairwise rows
  have hi : ∀ r ∈ (cargar_feedback rows).1, fbInvariant r :=
    fun r hr => mem_fbClean hr
  rw [fbClean_eq ((cargar_feedback rows).1)]
  rw [fbStep1_fix hp, fbStep2_fix hp hi, fbStep3_fix hi, fbStep4_fix hi,
    fbStep5_fix hi, fbAbs_fix hi, fbScale_fix hi, fbStep8_fix hi,
    fbStep9_fix hi]

theorem bnot_eq_true {b : Bool} (h : (!b) = true) : b = false := by
  cases b
  · rfl
  · simp at h

theorem futureB_mono {now1 now2 : ℤ} (h12 : now1 ≤ now2) {d : DVal}
    (h : futureB now1 d = false) : futureB now2 d = false := by
  cases d with
  | date t =>
    simp only [futureB, decide_eq_false_iff_not, not_lt] at h ⊢
    omega
  | raw s => rfl
  | null => rfl

theorem trxRowInv_mono {hf : Bool} {now1 now2 : ℤ} {r : TrxRow}
    (h12 : now1 ≤ now2) (h : trxRowInv hf now1 r) : trxRowInv hf now2 r :=
  ⟨h.1, h.2.1, h.2.2.1, h.2.2.2.1, h.2.2.2.2.1, h.2.2.2.2.2.1,
    futureB_mono h12 h.2.2.2.2.2.2⟩

theorem mem_trxPipeline {hf : Bool} {now : ℤ} {d2 : List TrxRow} {r : TrxRow}
    (h : r ∈ trxPipeline hf now d2) : r ∈ d2 ∧ trxRowInv hf now r := by
  unfold trxPipeline at h
  obtain ⟨h8, m9⟩ := List.mem_filter.mp h
  obtain ⟨h7, m8⟩ := List.mem_filter.mp h8
  obtain ⟨h6, m7⟩ := List.mem_filter.mp h7
  obtain ⟨h5, m6⟩ := List.mem_filter.mp h6
  by_cases hhf : hf = true
  · rw [if_pos hhf] at h5
    obtain ⟨h4, m5⟩ := List.mem_filter.mp h5
    obtain ⟨h3, m4⟩ := List.mem_filter.mp h4
    obtain ⟨hd2, m3⟩ := List.mem_filter.mp h3
    exact ⟨hd2, bnot_eq_true m3, bnot_eq_true m4,
      fun _ => bnot_eq_true m5, bnot_eq_true m6, bnot_eq_true m7,
      bnot_eq_true m8, bnot_eq_true m9⟩
  · rw [if_neg hhf] at h5
    obtain ⟨h3, m4⟩ := List.mem_filter.mp h5
    obtain ⟨hd2, m3⟩ := List.mem_filter.mp h3
    exact ⟨hd2, bnot_eq_true m3, bnot_eq_true m4,
      fun hc => absurd hc hhf, bnot_eq_true m6, bnot_eq_true m7,
      bnot_eq_true m8, bnot_eq_true m9⟩

theorem trxPipeline_fix {hf : Bool} {now : ℤ} {c : List TrxRow}
    (hinv : ∀ r ∈ c, trxRowInv hf now r) : trxPipeline hf now c = c := by
  have h3 : trxStep3 c = c :=
    List.filter_eq_self.mpr (fun r hr => by
      have := (hinv r hr).1
      simp [trxStep3] at this ⊢
      exact this)
  have h4 : trxStep4 c = c :=
    List.filter_eq_self.mpr (fun r hr => by
      have := (hinv r hr).2.1
      simp [this])
  have h6 : trxStep6 c = c :=
    List.filter_eq_self.mpr (fun r hr => by
      have := (hinv r hr).2.2.2.1
      simp [this])
  have h7 : trxStep7 c = c :=
    List.filter_eq_self.mpr (fun r hr => by
      have := (hinv r hr).2.2.2.2.1
      simp [this])
  have h8 : trxStep8 c = c :=
    List.filter_eq_self.mpr (fun r hr => by
      have := (hinv r hr).2.2.2.2.2.1
      simp [this])
  have h9 : trxStep9 now c = c :=
    List.filter_eq_self.mpr (fun r hr => by
      have := (hinv r hr).2.2.2.2.2.2
      simp [trxStep9, this])
  have hbranch :
      (if hf then trxStep5 (trxStep4 (trxStep3 c)) else trxStep4 (trxStep3 c)) = c := by
    by_cases hhf : hf = true
    · rw [if_pos hhf, h3, h4]
      exact List.filter_eq_self.mpr (fun r hr => by
        have := (hinv r hr).2.2.1 hhf
        simp [this])
    · rw [if_neg hhf, h3, h4]
  unfold trxPipeline
  rw [hbranch, h6, h7, h8, h9]

theorem cargar_trx_eq_none (p : Str → Option ℤ) (now : ℤ) (t : TrxTable) :
    (cargar_transacciones p none now t).1 =
      { rows := trxPipeline t.hasFantasma now (trxParse p t.rows),
        hasFantasma := t.hasFantasma } := by
  unfold cargar_transacciones trxPipeline
  dsimp only
  by_cases h : t.hasFantasma <;> simp [h]

theorem cargar_trx_eq_some (p : Str → Option ℤ) (inv : List InvRow) (now : ℤ)
    (t : TrxTable) :
    (cargar_transacciones p (some inv) now t).1 =
      { rows := trxPipeline true now (trxTag inv (trxParse p t.rows)),
        hasFantasma := true } := by
  unfold cargar_transacciones trxPipeline
  simp

theorem trxParse_stable {p : Str → Option ℤ} {c : List TrxRow}
    (hst : ∀ r ∈ c, parseDV p r.fechaVenta = r.fechaVenta) :
    trxParse p c = c := by
  apply map_id_of_mem
  intro r hr
  have := hst r hr
  cases r
  simp only at this
  simp [this]

theorem trxTag_stable {inv : List InvRow} {c : List TrxRow}
    (hst : ∀ r ∈ c,
      fantasmaTag ((inv.map (·.sku)).filter (·.isSome)) r = r.fantasma) :
    trxTag inv c = c := by
  apply map_id_of_mem
  intro r hr
  have := hst r hr
  cases r
  simp only at this
  simp [trxTag, this]

theorem mem_trxParse_fecha {p : Str → Option ℤ} {l : List TrxRow} {r : TrxRow}
    (hr : r ∈ trxParse p l) : parseDV p r.fechaVenta = r.fechaVenta := by
  obtain ⟨z, -, hez⟩ := List.mem_map.mp hr
  rw [← hez]
  exact parseDV_idem p z.fechaVenta

theorem mem_trxTag_fantasma {inv : List InvRow} {l : List TrxRow} {r : TrxRow}
    (hr : r ∈ trxTag inv l) :
    fantasmaTag ((inv.map (·.sku)).filter (·.isSome)) r = r.fantasma := by
  obtain ⟨z, -, hez⟩ := List.mem_map.mp hr
  rw [← hez]
  cases z
  simp [fantasmaTag]

theorem mem_trxTag_fecha {inv : List InvRow} {l : List TrxRow} {r : TrxRow}
    (hr : r ∈ trxTag inv l)
    (hl : ∀ z ∈ l, parseDV (p := p) z.fechaVenta = z.fechaVenta) :
    parseDV p r.fechaVenta = r.fechaVenta := by
  obtain ⟨z, hz, hez⟩ := List.mem_map.mp hr
  rw [← hez]
  exact hl z hz

theorem cargar_transacciones_idem (p : Str → Option ℤ)
    (invOpt : Option (List InvRow)) (now1 now2 : ℤ) (t : TrxTable)
    (h12 : now1 ≤ now2) :
    (cargar_transacciones p invOpt now2 (cargar_transacciones p invOpt now1 t).1).1 =
      (cargar_transacciones p invOpt now1 t).1 := by
  cases invOpt with
  | none =>
    rw [cargar_trx_eq_none p now1 t]
    rw [cargar_trx_eq_none p now2]
    dsimp only
    have hfe : ∀ r ∈ trxPipeline t.hasFantasma now1 (trxParse p t.rows),
        parseDV p r.fechaVenta = r.fechaVenta :=
      fun r hr => mem_trxParse_fecha (mem_trxPipeline hr).1
    have hinv : ∀ r ∈ trxPipeline t.hasFantasma now1 (trxParse p t.rows),
        trxRowInv t.hasFantasma now2 r :=
      fun r hr => trxRowInv_mono h12 (mem_trxPipeline hr).2
    rw [trxParse_stable hfe, trxPipeline_fix hinv]
  | some inv =>
    rw [cargar_trx_eq_some p inv now1 t]
    rw [cargar_trx_eq_some p inv now2]
    dsimp only
    have hfe0 : ∀ z ∈ trxTag inv (trxParse p t.rows),
        parseDV p z.fechaVenta = z.fechaVenta := by
      intro z hz
      exact mem_trxTag_fecha hz (fun y hy => mem_trxParse_fecha hy)
    have hfe : ∀ r ∈ trxPipeline true now1 (trxTag inv (trxParse p t.rows)),
        parseDV p r.fechaVenta = r.fechaVenta :=
      fun r hr => hfe0 r (mem_trxPipeline hr).1
    have htag : ∀ r ∈ trxPipeline true now1 (trxTag inv (trxParse p t.rows)),
        fantasmaTag ((inv.map (·.sku)).filter (·.isSome)) r = r.fantasma :=
      fun r hr => mem_trxTag_fantasma (mem_trxPipeline hr).1
    have hinv : ∀ r ∈ trxPipeline true now1 (trxTag inv (trxParse p t.rows)),
        trxRowInv true now2 r :=
      fun r hr => trxRowInv_mono h12 (mem_trxPipeline hr).2
    rw [trxParse_stable hfe, trxTag_stable htag, trxPipeline_fix hinv]

/-- C5 amended: the Feedback and Transactions cleaners are fixed points of
their own output (a second run, against the same inventory and at a later
or equal processing instant, returns the cleaned table unchanged); the
Inventory cleaner is not, because its IQR filters recompute the quantile
fences on the already-filtered data. -/
theorem C5_amended_idempotent :
    (∀ rows : List FbRow,
      (cargar_feedback (cargar_feedback rows).1).1 = (cargar_feedback rows).1) ∧
    (∀ (p : Str → Option ℤ) (invOpt : Option (List InvRow)) (now1 now2 : ℤ)
      (t : TrxTable), now1 ≤ now2 →
      (cargar_transacciones p invOpt now2
        (cargar_transacciones p invOpt now1 t).1).1 =
        (cargar_transacciones p invOpt now1 t).1) :=
  ⟨cargar_feedback_idem, fun p invOpt now1 now2 t h12 =>
    cargar_transacciones_idem p invOpt now1 now2 t h12⟩

/-- Discharge of C5's amended statement at a concrete input: one feedback
row and one transactions table rerun at a later instant. -/
theorem C5_amended_idempotent_witness :
    ((cargar_feedback (cargar_feedback w95Rows).1).1 = (cargar_feedback w95Rows).1) ∧
    ((3 : ℤ) ≤ 5) ∧
    ((cargar_transacciones noParse (some [w2Inv]) 5
        (cargar_transacciones noParse (some [w2Inv]) 3
          { rows := [w2T], hasFantasma := false }).1).1 =
      (cargar_transacciones noParse (some [w2Inv]) 3
        { rows := [w2T], hasFantasma := false }).1) :=
  ⟨C5_amended_idempotent.1 w95Rows, by norm_num,
    C5_amended_idempotent.2 noParse (some [w2Inv]) 3 5
      { rows := [w2T], hasFantasma := false } (by norm_num)⟩

/-- Counterexample to C8 as stated: the divide-by-10 branch also rounds to
2 decimals.  A raw satisfaction score of 55.555 (observed max, inside
(10, 100]) comes out of the feedback cleaner as 5.56 = 139/25, not as
55.555 / 10 = 5.5555. -/
theorem C8_counterexample :
    ((cargar_feedback [c8Row]).1.map (fun r => r.nps)) = [some (139 / 25)] ∧
    (139 : ℚ) / 25 ≠ (55555 / 1000) / 10 := by
  constructor
  · norm_num [cargar_feedback, fbStep1, fbStep2, fbStep3, fbStep4, fbStep5,
      fbAbs, fbScale, fbStep8, fbStep9, dedupBy, dedupByAux, fbStripIds,
      fbKey, npsVals, listMax, listMin, qLtB, qGtB, stripL, isSpc, c8Row,
      roundQ2, rhe, abs_of_nonneg, Int.toNat_ofNat]
    all_goals norm_num +decide [Int.fract, List.dropWhile, isSpc, qLtB, qGtB]
  · norm_num

/-- C8 amended: with the observed (NaN-skipping) maximum of the absolute
satisfaction scores in (10, 100], every score v is replaced by
round2(v / 10) (banker's rounding to 2 decimals); with the maximum above
100 and a positive observed range, min-max rescaling to [0, 10] rounded to
2 decimals is applied; the rescaling step never adds or removes rows. -/
theorem C8_amended_scale (l : List FbRow) :
    ((fbScale l).length = l.length) ∧
    (∀ mx, listMax (npsVals l) = some mx →
      ((10 < mx ∧ mx ≤ 100) →
        fbScale l = l.map (fun r =>
          { r with nps := r.nps.map (fun v => roundQ2 (v / 10)) })) ∧
      (100 < mx → ∀ mn, listMin (npsVals l) = some mn → 0 < mx - mn →
        fbScale l = l.map (fun r =>
          { r with nps := r.nps.map (fun v =>
              roundQ2 ((v - mn) / (mx - mn) * 10)) }))) := by
  refine ⟨fbScale_length l, ?_⟩
  intro mx hmx
  constructor
  · intro hb
    unfold fbScale
    rw [hmx]
    dsimp only
    rw [if_pos hb]
  · intro hb mn hmn hrange
    unfold fbScale
    rw [hmx]
    dsimp only
    rw [if_neg (fun hcon => absurd hcon.2 (by linarith)), if_pos hb, hmn]
    simp only [Option.getD_some]
    rw [if_pos hrange]

/-- Discharge of C8's amended statement on the 0-100 scale example: the
observed max is 95, and the column is divided by 10 and rounded (95
becomes 9.5). -/
theorem C8_amended_scale_witness :
    listMax (npsVals w95Rows) = some 95 ∧ (10 < (95:ℚ) ∧ (95:ℚ) ≤ 100) ∧
    fbScale w95Rows = w95Rows.map (fun r =>
      { r with nps := r.nps.map (fun v => roundQ2 (v / 10)) }) := by
  have hmx : listMax (npsVals w95Rows) = some 95 := by
    norm_num [npsVals, listMax, w95Rows]
  exact ⟨hmx, by norm_num,
    ((C8_amended_scale w95Rows).2 95 hmx).1 (by norm_num)⟩

theorem rhe_le_of_le {q : ℚ} {n : ℤ} (h : q ≤ n) : rhe q ≤ n := by
  unfold rhe
  dsimp only
  have hf : ⌊q⌋ ≤ n := by
    have := Int.floor_le_floor h
    rwa [Int.floor_intCast] at this
  have hkey : (1/2 : ℚ) ≤ q - ⌊q⌋ → ⌊q⌋ + 1 ≤ n := by
    intro hr
    rcases lt_or_eq_of_le hf with hlt | heq
    · omega
    · exfalso
      rw [heq] at hr
      have hq : q ≤ (n : ℚ) := h
      linarith
  split_ifs with h1 h2 h3
  · exact hf
  · exact hkey (le_of_lt h2)
  · exact hf
  · exact hkey (le_of_not_lt h1)

theorem rhe_nonneg {q : ℚ} (h : 0 ≤ q) : 0 ≤ rhe q := by
  unfold rhe
  dsimp only
  have hf : 0 ≤ ⌊q⌋ := Int.floor_nonneg.mpr h
  split_ifs <;> omega

theorem roundQ2_nonneg {q : ℚ} (h : 0 ≤ q) : 0 ≤ roundQ2 q := by
  unfold roundQ2
  refine div_nonneg ?_ (by norm_num)
  exact_mod_cast rhe_nonneg (by positivity)

theorem roundQ2_le_100 {q : ℚ} (h : q ≤ 100) : roundQ2 q ≤ 100 := by
  unfold roundQ2
  have h1 : q * 100 ≤ ((10000 : ℤ) : ℚ) := by push_cast; linarith
  have h2 : rhe (q * 100) ≤ 10000 := rhe_le_of_le h1
  rw [div_le_iff₀ (by norm_num : (0:ℚ) < 100)]
  have h3 : ((rhe (q * 100) : ℤ) : ℚ) ≤ 10000 := by exact_mod_cast h2
  linarith

theorem colMissingPct_nonneg (n : ℕ) (cells : List Cell) :
    0 ≤ colMissingPct n cells := by
  unfold colMissingPct
  exact roundQ2_nonneg (by positivity)

theorem missingPcts_sum_nonneg (df : DF) : 0 ≤ (missingPcts df).sum := by
  refine List.sum_nonneg ?_
  intro x hx
  obtain ⟨j, -, hj⟩ := List.mem_map.mp hx
  exact hj ▸ colMissingPct_nonneg _ _

theorem optCase_nonneg {o : Option (List Cell)} {f : List Cell → ℚ}
    (hf : ∀ x, 0 ≤ f x) :
    0 ≤ (match o with
      | none => (0 : ℚ)
      | some cells => f cells) := by
  cases o with
  | none => exact le_refl 0
  | some cells => exact hf cells

theorem invStockPenalty_nonneg (df : DF) : 0 ≤ invStockPenalty df := by
  unfold invStockPenalty
  refine optCase_nonneg ?_
  intro x
  dsimp only
  split_ifs <;> norm_num

theorem fbPenalty_nonneg (df : DF) : 0 ≤ fbPenalty df := by
  unfold fbPenalty
  dsimp only
  refine add_nonneg (add_nonneg (add_nonneg ?_ ?_) ?_) ?_
  · split_ifs <;> norm_num
  · rcases colCells df "Feedback_ID" with - | fc
    · rcases colCells df "Transaccion_ID" with - | tc <;> norm_num
    · rcases colCells df "Transaccion_ID" with - | tc
      · norm_num
      · dsimp only
        split_ifs <;> norm_num
  · refine optCase_nonneg ?_
    intro x
    dsimp only
    split_ifs <;> norm_num
  · refine optCase_nonneg ?_
    intro x
    dsimp only
    split_ifs <;> norm_num

theorem trxPenalty_nonneg (df : DF) : 0 ≤ trxPenalty df := by
  unfold trxPenalty
  dsimp only
  refine add_nonneg (add_nonneg (add_nonneg ?_ ?_) ?_) ?_
  · refine optCase_nonneg ?_
    intro x
    dsimp only
    split_ifs <;> norm_num
  · refine optCase_nonneg ?_
    intro x
    dsimp only
    split_ifs <;> norm_num
  · refine optCase_nonneg ?_
    intro x
    dsimp only
    split_ifs <;> norm_num
  · refine List.sum_nonneg ?_
    intro x hx
    obtain ⟨c, -, hc⟩ := List.mem_map.mp hx
    refine hc ▸ optCase_nonneg ?_
    intro y
    dsimp only
    split_ifs <;> norm_num

theorem datasetPenalty_nonneg (kind : DKind) (df : DF) :
    0 ≤ datasetPenalty kind df := by
  cases kind with
  | inventario => exact invStockPenalty_nonneg df
  | feedback => exact fbPenalty_nonneg df
  | transacciones => exact trxPenalty_nonneg df
  | generic => exact le_refl 0

/-- C3: the scalar health score of run_healthcheck always lies in
[0, 100]: it starts at 100, subtracts the summed per-column missing
percentages / 10, 0.5 per duplicated row and the dataset-specific
penalties - every subtracted term is nonnegative, so the rounded score
never exceeds 100 - and max(0, .) floors it at 0. -/
theorem C3_health_score_range (df : DF) (req : List String) (kind : DKind) :
    0 ≤ (run_healthcheck df req kind).score ∧
      (run_healthcheck df req kind).score ≤ 100 := by
  have hscore : (run_healthcheck df req kind).score =
      max 0 (roundQ2 (100 - (missingPcts df).sum / 10 -
        (dupCount df : ℚ) * (1/2) - datasetPenalty kind df)) := rfl
  constructor
  · rw [hscore]
    exact le_max_left 0 _
  · rw [hscore]
    refine max_le (by norm_num) (roundQ2_le_100 ?_)
    have h1 := missingPcts_sum_nonneg df
    have h2 : (0:ℚ) ≤ (dupCount df : ℚ) := by positivity
    have h3 := datasetPenalty_nonneg kind df
    linarith

/-- C9: the report status is INVALID iff some required column is absent
from the table, independently of the numeric score; with every required
column present (in particular with no required columns) it is OK. -/
theorem C9_status_invalid_iff (df : DF) (req : List String) (kind : DKind) :
    ((run_healthcheck df req kind).status = HStatus.invalid ↔
      ∃ c ∈ req, c ∉ df.cols) ∧
    ((∀ c ∈ req, c ∈ df.cols) → (run_healthcheck df req kind).status = HStatus.ok) := by
  have hstat : (run_healthcheck df req kind).status =
      if (missingRequired df req).isEmpty then HStatus.ok else HStatus.invalid := rfl
  have hchar : (missingRequired df req).isEmpty = true ↔ ∀ c ∈ req, c ∈ df.cols := by
    rw [List.isEmpty_iff]
    unfold missingRequired
    rw [List.filter_eq_nil_iff]
    constructor
    · intro h c hc
      have := h c hc
      simpa using this
    · intro h c hc
      simpa using h c hc
  constructor
  · rw [hstat]
    by_cases he : (missingRequired df req).isEmpty
    · rw [if_pos he]
      refine iff_of_false (by simp) ?_
      rintro ⟨c, hc, hnc⟩
      exact hnc (hchar.mp he c hc)
    · rw [if_neg he]
      refine iff_of_true rfl ?_
      by_contra hno
      push_neg at hno
      exact he (hchar.mpr (fun c hc => hno c hc))
  · intro hall
    rw [hstat, if_pos (hchar.mpr hall)]

/-- C10: run_healthcheck leaves its input table unchanged.  In the
state-passing embedding the table threaded through the call comes back
equal to the one passed in, reflecting that every statement of the source
reads df_raw or writes only the local report dictionary and .copy()-ed
frames. -/
theorem C10_healthcheck_frame (df : DF) (req : List String) (kind : DKind) :
    (run_healthcheck_st df req kind).2 = df := rfl

/-- Discharge of C9 at a concrete input: a table carrying its single
required column is reported OK. -/
theorem C9_status_invalid_iff_witness :
    (∀ c ∈ ["Edad_Cliente"], c ∈ (DF.mk ["Edad_Cliente"] []).cols) ∧
    (run_healthcheck (DF.mk ["Edad_Cliente"] []) ["Edad_Cliente"]
      DKind.generic).status = HStatus.ok := by
  have h : ∀ c ∈ ["Edad_Cliente"], c ∈ (DF.mk ["Edad_Cliente"] []).cols := by
    simp
  exact ⟨h, (C9_status_invalid_iff (DF.mk ["Edad_Cliente"] [])
    ["Edad_Cliente"] DKind.generic).2 h⟩
